import Mathlib

/-!
# fixedsizelog: a two-file log writer with a size threshold

A shallow embedding of `fixedsizelog.go`.  The writer owns the two paths
`path + ".A"` and `path + ".B"`; the part of the file system it can touch is
therefore modelled as two slots, indexed like the `paths` slice of the source.

Calls into package `os` are the only effects of the program.  Each of them is
a total function of the file-system state and of the outcome the operating
system gives to that call (an injected failure, the number of bytes an append
lands, the modification time stamped on the file), so every error path of the
source can be exercised.

The `int64` fields are modelled by `Int`.  The only arithmetic on them is
`maxSize / 2` and `w.size += int64(n)`, where `w.size` is below `maxHalfSize`
or zero when the addition happens and `n` is at most the buffer length, so no
wrap-around is reachable; `size_in_int64_range` below states this.
-/

namespace Fixedsizelog

/-! ## Errors -/

/-- Error values the program returns or receives. -/
inductive Err where
  /-- The error `errors.New("log closed")`. -/
  | closed
  /-- The error of `fmt.Errorf("maxSize should be >0")`. -/
  | badMaxSize
  /-- An operating-system error for which `os.IsNotExist` holds. -/
  | notExist
  /-- The error `os.ErrInvalid` a nil `*os.File` answers with. -/
  | invalid
  /-- Another operating-system error, by number. -/
  | sys (code : Nat)
deriving DecidableEq

/-- The package variable `errClosed`. -/
abbrev errClosed : Err := .closed

/-- The test `os.IsNotExist(err)`. -/
def IsNotExist : Err → Bool
  | .notExist => true
  | _ => false

/-! ## The two files -/

/-- One byte of a buffer. -/
abbrev Byte := UInt8

/-- A regular file: its content and its modification time. -/
structure File where
  data : List Byte
  modTime : Nat
deriving DecidableEq

/-- The files at `paths[0]` (`path + ".A"`) and `paths[1]` (`path + ".B"`);
`none` is a file that does not exist. -/
structure FS where
  A : Option File
  B : Option File
deriving DecidableEq

/-- The slice `paths` of `New`. -/
def paths (path : String) : List String := [path ++ ".A", path ++ ".B"]

/-- The file at `paths[i]`. -/
def FS.get (fs : FS) (i : Fin 2) : Option File :=
  if i = 0 then fs.A else fs.B

/-- Replace the file at `paths[i]`. -/
def FS.set (fs : FS) (i : Fin 2) (f : Option File) : FS :=
  if i = 0 then { fs with A := f } else { fs with B := f }

/-- On-disk content of `paths[i]`, empty for a file that does not exist. -/
def FS.content (fs : FS) (i : Fin 2) : List Byte :=
  match fs.get i with
  | some f => f.data
  | none => []

/-- On-disk size of `paths[i]`, zero for a file that does not exist. -/
def FS.size (fs : FS) (i : Fin 2) : Nat := (fs.content i).length

/-- What `Stat` reports: `Size()` and `ModTime()`. -/
structure FileInfo where
  size : Int
  modTime : Nat
deriving DecidableEq

/-! ## Package `os`, as far as the program uses it

A handle is the slot it was opened on: nothing renames or unlinks the files.
-/

/-- The call `os.OpenFile(paths[i], O_WRONLY|O_APPEND, 0666)`: no file is
created.  `fault` is a failure other than not-found that the operating system
may answer with. -/
def openAppend (fs : FS) (i : Fin 2) (fault : Option Nat) : Except Err (Fin 2) :=
  match fault with
  | some c => .error (.sys c)
  | none =>
    match fs.get i with
    | some _ => .ok i
    | none => .error .notExist

/-- The call `os.OpenFile(paths[i], O_CREATE|O_TRUNC|O_WRONLY|O_APPEND, 0666)`:
on success the file exists, is empty and carries the modification time `now`;
a failed call leaves the file as it was. -/
def openTrunc (fs : FS) (i : Fin 2) (fault : Option Err) (now : Nat) :
    Except Err (Fin 2) × FS :=
  match fault with
  | some e => (.error e, fs)
  | none => (.ok i, fs.set i (some { data := [], modTime := now }))

/-- The call `f.Stat()` on an open handle. -/
def stat (fs : FS) (f : Fin 2) (fault : Option Err) : Except Err FileInfo :=
  match fault with
  | some e => .error e
  | none =>
    match fs.get f with
    | some file => .ok { size := file.data.length, modTime := file.modTime }
    | none => .error .notExist

/-- The call `f.Write(buf)` on a handle opened with `O_APPEND`.  The operating
system reports the count `n` and the error `err`; the first `n` bytes of `buf`
land at the end of the file, and a write that lands at least one byte stamps
the modification time `now`. -/
def fileWrite (fs : FS) (f : Fin 2) (buf : List Byte) (n : Int) (err : Option Err)
    (now : Nat) : (Int × Option Err) × FS :=
  match fs.get f with
  | some file =>
    let landed := buf.take n.toNat
    if landed = [] then ((n, err), fs)
    else ((n, err), fs.set f (some { data := file.data ++ landed, modTime := now }))
  | none => ((n, err), fs)

/-! ## The writer -/

/-- The struct `writer`.  `paths` never changes and is the indexing of `FS`;
the mutex is left out, calls are taken one at a time. -/
structure writer where
  maxHalfSize : Int
  /-- Current active file. -/
  index : Fin 2
  /-- The open handle, `none` for `nil`. -/
  file : Option (Fin 2)
  size : Int
deriving DecidableEq

/-- What the operating system answers during one `Write` call. -/
structure WriteEnv where
  /-- Failure of the `os.OpenFile` of `toOther`. -/
  openErr : Option Err
  /-- Modification time stamped by that `os.OpenFile`. -/
  openTime : Nat
  /-- Result of the `w.file.Close()` of `toOther`. -/
  closeErr : Option Err
  /-- Count returned by `w.file.Write(buf)`. -/
  n : Int
  /-- Error returned by `w.file.Write(buf)`. -/
  writeErr : Option Err
  /-- Modification time stamped by `w.file.Write(buf)`. -/
  writeTime : Nat
deriving DecidableEq

/-- The method `toOther`. -/
def toOther (w : writer) (fs : FS) (env : WriteEnv) : Option Err × writer × FS :=
  match openTrunc fs (1 - w.index) env.openErr env.openTime with
  | (.error err, fs1) => (some err, w, fs1)
  | (.ok f, fs1) =>
    let err := env.closeErr
    (err, { w with file := some f, size := 0, index := 1 - w.index }, fs1)

/-- Lines 47 to 51 of `Write`: the append and the accounting. -/
def writeBuf (w : writer) (fs : FS) (buf : List Byte) (env : WriteEnv) :
    (Int × Option Err) × writer × FS :=
  match w.file with
  | none => ((0, some .invalid), w, fs)
  | some f =>
    match fileWrite fs f buf env.n env.writeErr env.writeTime with
    | ((n, err), fs1) =>
      if n > 0 then ((n, err), { w with size := w.size + n }, fs1)
      else ((n, err), w, fs1)

/-- The method `Write`. -/
def Write (w : writer) (fs : FS) (buf : List Byte) (env : WriteEnv) :
    (Int × Option Err) × writer × FS :=
  match w.file with
  | none => ((-1, some errClosed), w, fs)
  | some _ =>
    if w.size ≥ w.maxHalfSize then
      match toOther w fs env with
      | (some err, w1, fs1) => ((-1, some err), w1, fs1)
      | (none, w1, fs1) => writeBuf w1 fs1 buf env
    else writeBuf w fs buf env

/-- The method `Close`; `closeErr` is the result of `w.file.Close()`. -/
def Close (w : writer) (fs : FS) (closeErr : Option Err) : Option Err × writer × FS :=
  match w.file with
  | none => (some errClosed, w, fs)
  | some _ => (closeErr, { w with file := none }, fs)

/-- What the operating system answers during one `New` call. -/
structure NewEnv where
  /-- Failure other than not-found of the first `os.OpenFile(paths[0], ...)`. -/
  open0 : Option Nat
  /-- Failure other than not-found of `os.OpenFile(paths[1], ...)`. -/
  open1 : Option Nat
  /-- Failure of `f0.Stat()`. -/
  stat0 : Option Err
  /-- Failure of `f1.Stat()`. -/
  stat1 : Option Err
  /-- Failure of the creating `os.OpenFile(w.paths[0], ...)`. -/
  create : Option Err
  /-- Modification time stamped by the creating `os.OpenFile`. -/
  createTime : Nat
deriving DecidableEq

/-- The function `New`.  The deferred `Close` calls release the handles not
kept and change neither file. -/
def New (fs : FS) (maxSize : Int) (env : NewEnv) : Except Err writer × FS :=
  if maxSize ≤ 0 then (.error .badMaxSize, fs)
  else
    let w : writer := { maxHalfSize := maxSize.tdiv 2, index := 0, file := none, size := 0 }
    match openAppend fs 0 env.open0, openAppend fs 1 env.open1 with
    | .ok f0, .ok f1 =>
      match stat fs f0 env.stat0, stat fs f1 env.stat1 with
      | .error err0, _ => (.error err0, fs)
      | .ok _, .error err1 => (.error err1, fs)
      | .ok fi0, .ok fi1 =>
        if fi0.modTime > fi1.modTime then
          (.ok { w with index := 0, file := some f0, size := fi0.size }, fs)
        else
          (.ok { w with index := 1, file := some f1, size := fi1.size }, fs)
    | .error err0, r1 =>
      if !IsNotExist err0 then (.error err0, fs)
      else
        match r1 with
        | .error err1 =>
          if !IsNotExist err1 then (.error err1, fs)
          else
            match openTrunc fs 0 env.create env.createTime with
            | (.error err, fs1) => (.error err, fs1)
            | (.ok f, fs1) => (.ok { w with file := some f }, fs1)
        | .ok f1 =>
          match stat fs f1 env.stat1 with
          | .error err => (.error err, fs)
          | .ok fi => (.ok { w with index := 1, file := some f1, size := fi.size }, fs)
    | .ok f0, .error err1 =>
      if !IsNotExist err1 then (.error err1, fs)
      else
        match stat fs f0 env.stat0 with
        | .error err => (.error err, fs)
        | .ok fi => (.ok { w with index := 0, file := some f0, size := fi.size }, fs)

/-! ## Sequences of calls -/

/-- An operating system that lets every call of one `Write(buf)` succeed in
full. -/
def WriteEnv.ok (env : WriteEnv) (buf : List Byte) : Prop :=
  env.openErr = none ∧ env.closeErr = none ∧ env.n = buf.length ∧ env.writeErr = none

instance (env : WriteEnv) (buf : List Byte) : Decidable (env.ok buf) := by
  unfold WriteEnv.ok; infer_instance

/-- The fully successful outcome of `Write(buf)` with modification times `t`
for the rotation and `t + 1` for the append. -/
def okEnv (buf : List Byte) (t : Nat) : WriteEnv :=
  { openErr := none, openTime := t, closeErr := none, n := buf.length, writeErr := none,
    writeTime := t + 1 }

/-- Successive `Write` calls, each with the outcome the operating system gives
it; the results are dropped. -/
def writes : writer × FS → List (List Byte × WriteEnv) → writer × FS
  | s, [] => s
  | s, (buf, env) :: rest => writes (Write s.1 s.2 buf env).2 rest

/-- The outcome of `New` in which no call fails; a created file is stamped `t`. -/
def okNew (t : Nat) : NewEnv :=
  { open0 := none, open1 := none, stat0 := none, stat1 := none, create := none,
    createTime := t }

/-- The buffer `[]byte("012345\n")` of the test. -/
def b1 : List Byte := [48, 49, 50, 51, 52, 53, 10]

/-- A file system in which neither file exists. -/
def emptyFS : FS := { A := none, B := none }

/-- The writer and files `New(path, 20)` gives the test on its fresh directory. -/
def testStart : writer × FS :=
  ({ maxHalfSize := 10, index := 0, file := some 0, size := 0 },
   { A := some { data := [], modTime := 0 }, B := none })

/-- The first `k` of the `Write(b1)` calls of the test, all fully successful, the
`j`-th stamped with the times `2 * j + 1` and `2 * j + 2`. -/
def testWrites (k : Nat) : List (List Byte × WriteEnv) :=
  (List.range k).map fun j => (b1, okEnv b1 (2 * j + 1))

/-- A call on the writer, with the outcome the operating system gives it. -/
inductive Call where
  | write (buf : List Byte) (env : WriteEnv)
  | close (closeErr : Option Err)

/-- What a call returns: `(n, err)` for `Write`, `err` for `Close`. -/
inductive Ret where
  | write (n : Int) (err : Option Err)
  | close (err : Option Err)
deriving DecidableEq

/-- One call on the writer. -/
def call (s : writer × FS) : Call → Ret × (writer × FS)
  | .write buf env => (.write (Write s.1 s.2 buf env).1.1 (Write s.1 s.2 buf env).1.2,
      (Write s.1 s.2 buf env).2)
  | .close closeErr => (.close (Close s.1 s.2 closeErr).1, (Close s.1 s.2 closeErr).2)

/-- Successive calls on the writer: what each returns, and the final state. -/
def calls : writer × FS → List Call → List Ret × (writer × FS)
  | s, [] => ([], s)
  | s, c :: rest => ((call s c).1 :: (calls (call s c).2 rest).1, (calls (call s c).2 rest).2)

/-- The answer of a closed writer: `(-1, errClosed)` to `Write`, `errClosed`
to `Close`. -/
def closedRet : Call → Ret
  | .write _ _ => .write (-1) (some errClosed)
  | .close _ => .close (some errClosed)

/-- The file system just after the rotation step of `Write` (lines 42 to 46),
before the append. -/
def afterRotate (w : writer) (fs : FS) (env : WriteEnv) : FS :=
  match w.file with
  | none => fs
  | some _ => if w.size ≥ w.maxHalfSize then (toOther w fs env).2.2 else fs

/-- Every file-system state a sequence of `Write` calls passes through: the
state before each call, the state after its rotation step, and the final
state.  (An append only grows a file towards the state after the call.) -/
def fsTrace : writer × FS → List (List Byte × WriteEnv) → List FS
  | s, [] => [s.2]
  | s, (buf, env) :: rest =>
    s.2 :: afterRotate s.1 s.2 env :: fsTrace (Write s.1 s.2 buf env).2 rest

/-- The writer is open on its active file and its `size` field is the on-disk
size of that file. -/
def Tracks (w : writer) (fs : FS) : Prop :=
  w.file = some w.index ∧ (∃ f, fs.get w.index = some f) ∧ w.size = fs.size w.index

/-- A file that does not exist, or was last modified before `t`. -/
def modifiedBefore : Option File → Nat → Prop
  | none, _ => True
  | some f, t => f.modTime < t

instance (o : Option File) (t : Nat) : Decidable (modifiedBefore o t) :=
  match o with
  | none => isTrue trivial
  | some f => (inferInstance : Decidable (f.modTime < t))

/-- Every modification time on disk is before `t`. -/
def FS.before (fs : FS) (t : Nat) : Prop :=
  modifiedBefore fs.A t ∧ modifiedBefore fs.B t

instance (fs : FS) (t : Nat) : Decidable (fs.before t) := by
  unfold FS.before; infer_instance

/-- The rotation step of this `Write` creates or truncates the other file: the
writer is open, its size is at or over the threshold and the open succeeds. -/
def truncates (w : writer) (env : WriteEnv) : Prop :=
  w.file ≠ none ∧ w.maxHalfSize ≤ w.size ∧ env.openErr = none

instance (w : writer) (env : WriteEnv) : Decidable (truncates w env) := by
  unfold truncates; infer_instance

/-- The append of this `Write` is reached (the writer is open and a rotation,
if there is one, succeeds) and lands at least one byte. -/
def appends (w : writer) (buf : List Byte) (env : WriteEnv) : Prop :=
  w.file ≠ none ∧ (w.maxHalfSize ≤ w.size → env.openErr = none ∧ env.closeErr = none) ∧
    buf.take env.n.toNat ≠ []

instance (w : writer) (buf : List Byte) (env : WriteEnv) : Decidable (appends w buf env) := by
  unfold appends; infer_instance

/-- The stamps this `Write` puts on a file are later than every modification
time on disk at that moment: the stamp of the creation or truncation, when one
happens, is later than the files the call starts from, and the stamp of the
append, when it lands a byte, is later than the files as the rotation step
left them.  A stamp the call does not use is not constrained. -/
def LaterStep (w : writer) (fs : FS) (buf : List Byte) (env : WriteEnv) : Prop :=
  (truncates w env → fs.before env.openTime) ∧
  (appends w buf env → (afterRotate w fs env).before env.writeTime)

instance (w : writer) (fs : FS) (buf : List Byte) (env : WriteEnv) :
    Decidable (LaterStep w fs buf env) := by
  unfold LaterStep; infer_instance

/-- Along the sequence of writes, the operating system stamps every creation,
truncation and append with a time later than every modification time then on
disk. -/
def LaterRun : writer × FS → List (List Byte × WriteEnv) → Prop
  | _, [] => True
  | s, (buf, env) :: rest =>
    LaterStep s.1 s.2 buf env ∧ LaterRun (Write s.1 s.2 buf env).2 rest

/-- Deciding `LaterRun` by running the writes. -/
def LaterRun.decidable :
    (s : writer × FS) → (ws : List (List Byte × WriteEnv)) → Decidable (LaterRun s ws)
  | _, [] => isTrue trivial
  | s, (buf, env) :: rest =>
    have := LaterRun.decidable (Write s.1 s.2 buf env).2 rest
    (inferInstance : Decidable (LaterStep s.1 s.2 buf env ∧
      LaterRun (Write s.1 s.2 buf env).2 rest))

instance (s : writer × FS) (ws : List (List Byte × WriteEnv)) : Decidable (LaterRun s ws) :=
  LaterRun.decidable s ws

/-- The writer is open on its active file, and that file is the one `New`
would pick: it exists, and the other file, if it exists, is older, or as old
when the active file is B. -/
def Resumes (w : writer) (fs : FS) : Prop :=
  w.file = some w.index ∧
  ∃ f, fs.get w.index = some f ∧
    ∀ g, fs.get (1 - w.index) = some g →
      g.modTime < f.modTime ∨ (w.index = 1 ∧ g.modTime = f.modTime)

/-- The append of `Write(buf)` lands exactly the `n` bytes it reports. -/
def WriteEnv.lands (env : WriteEnv) (buf : List Byte) : Prop :=
  0 ≤ env.n ∧ env.n ≤ buf.length

instance (env : WriteEnv) (buf : List Byte) : Decidable (env.lands buf) := by
  unfold WriteEnv.lands; infer_instance

/-- The writer and files `New(path, 1)` gives on a directory with neither
file: the threshold `1 / 2` is zero. -/
def tinyStart : writer × FS :=
  ({ maxHalfSize := 0, index := 0, file := some 0, size := 0 },
   { A := some { data := [], modTime := 0 }, B := none })

/-- Four writes of `b1` on the fresh log of the test: a full one, one whose
append lands 3 bytes and reports an error, one whose rotation closes the old
handle with an error, and a full one. -/
def faultyWrites : List (List Byte × WriteEnv) :=
  [(b1, okEnv b1 1),
   (b1, { okEnv b1 3 with n := 3, writeErr := some (.sys 28) }),
   (b1, { okEnv b1 5 with closeErr := some (.sys 5) }),
   (b1, okEnv b1 7)]

/-! ## Basic facts about the two slots -/

theorem one_sub_ne (i : Fin 2) : 1 - i ≠ i := by
  revert i; decide

theorem one_sub_one_sub (i : Fin 2) : 1 - (1 - i) = i := by
  revert i; decide

theorem eq_or_eq_one_sub (i j : Fin 2) : j = i ∨ j = 1 - i := by
  revert i j; decide

theorem FS.get_set_same (fs : FS) (i : Fin 2) (f : Option File) : (fs.set i f).get i = f := by
  unfold FS.set FS.get; split <;> simp_all

theorem FS.get_set_other (fs : FS) (i j : Fin 2) (f : Option File) (h : j ≠ i) :
    (fs.set i f).get j = fs.get j := by
  unfold FS.set FS.get
  have : ∀ a b : Fin 2, b ≠ a → (a = 0 → b ≠ 0) ∧ (a ≠ 0 → b = 0) := by decide
  obtain ⟨h1, h2⟩ := this i j h
  by_cases hi : i = 0
  · simp [hi, h1 hi]
  · simp [hi, h2 hi]

/-- The two paths of a base path are different, so the two slots never alias. -/
theorem paths_distinct (path : String) :
    (paths path).length = 2 ∧ path ++ ".A" ≠ path ++ ".B" := by
  refine ⟨rfl, fun h => ?_⟩
  have h2 := congrArg String.data h
  simp only [String.data_append, List.append_cancel_left_eq] at h2
  exact absurd h2 (by decide)

/-! ## The `int64` fields -/

theorem writeBuf_size (w : writer) (fs : FS) (buf : List Byte) (env : WriteEnv) :
    (writeBuf w fs buf env).2.1.size = w.size ∨
    (0 < env.n ∧ (writeBuf w fs buf env).2.1.size = w.size + env.n) := by
  unfold writeBuf
  cases hf : w.file with
  | none => simp
  | some f =>
    have hfw : (fileWrite fs f buf env.n env.writeErr env.writeTime).1 = (env.n, env.writeErr) := by
      unfold fileWrite
      split
      · simp only
        split <;> rfl
      · rfl
    by_cases hn : env.n > 0
    · right
      refine ⟨hn, ?_⟩
      simp [hfw, hn]
    · left
      simp [hfw, hn]

/-- The field `size` never leaves the range of `int64`: it is only added to
when below `maxHalfSize` (at most `maxSize / 2 < 2^62`) or just reset to zero,
and what is added is a count of bytes of a buffer, below `2^62`.  So the
unbounded `Int` of this model and the `int64` of the source agree. -/
theorem size_in_int64_range (w : writer) (fs : FS) (buf : List Byte) (env : WriteEnv)
    (hlo : -(2 : Int) ^ 63 ≤ w.size) (hhi : w.size < (2 : Int) ^ 63)
    (hm : w.maxHalfSize < (2 : Int) ^ 62) (hn : env.n ≤ buf.length)
    (hb : (buf.length : Int) < (2 : Int) ^ 62) :
    -(2 : Int) ^ 63 ≤ (Write w fs buf env).2.1.size ∧
    (Write w fs buf env).2.1.size < (2 : Int) ^ 63 := by
  unfold Write
  cases hf : w.file with
  | none => exact ⟨hlo, hhi⟩
  | some f =>
    simp only
    by_cases hge : w.size ≥ w.maxHalfSize
    · simp only [hge, if_true, toOther, openTrunc]
      cases ho : env.openErr with
      | some e => exact ⟨hlo, hhi⟩
      | none =>
        cases hc : env.closeErr with
        | some e => simp
        | none =>
          simp only
          rcases writeBuf_size
            { w with file := some (1 - w.index), size := 0, index := 1 - w.index }
            (fs.set (1 - w.index) (some { data := [], modTime := env.openTime })) buf env
            with h | ⟨hp, h⟩
          · rw [h]; simp
          · rw [h]; simp only; omega
    · simp only [hge, if_false]
      rcases writeBuf_size w fs buf env with h | ⟨hp, h⟩
      · rw [h]; exact ⟨hlo, hhi⟩
      · rw [h]; omega

/-! ## One `Write` call -/

theorem fileWrite_full (fs : FS) (f : Fin 2) (buf : List Byte) (err : Option Err) (now : Nat)
    (file : File) (h : fs.get f = some file) :
    fileWrite fs f buf buf.length err now =
      (((buf.length : Int), err),
        if buf = [] then fs else fs.set f (some { data := file.data ++ buf, modTime := now })) := by
  unfold fileWrite
  simp only [h, Int.toNat_ofNat, List.take_length]
  by_cases hb : buf = [] <;> simp [hb]

theorem Write_below (w : writer) (fs : FS) (buf : List Byte) (env : WriteEnv) (f : Fin 2)
    (hopen : w.file = some f) (hlt : w.size < w.maxHalfSize) :
    Write w fs buf env = writeBuf w fs buf env := by
  have hnot : ¬ (w.size ≥ w.maxHalfSize) := by omega
  simp only [Write, hopen, hnot, if_false]

theorem Write_rotate (w : writer) (fs : FS) (buf : List Byte) (env : WriteEnv) (f : Fin 2)
    (hopen : w.file = some f) (hge : w.maxHalfSize ≤ w.size)
    (ho : env.openErr = none) (hc : env.closeErr = none) :
    Write w fs buf env =
      writeBuf { w with file := some (1 - w.index), size := 0, index := 1 - w.index }
        (fs.set (1 - w.index) (some { data := [], modTime := env.openTime })) buf env := by
  simp only [Write, hopen, ge_iff_le, hge, if_true, toOther, openTrunc, ho, hc]

theorem writeBuf_full (w : writer) (fs : FS) (buf : List Byte) (env : WriteEnv) (f : Fin 2)
    (file : File) (hopen : w.file = some f) (hf : fs.get f = some file)
    (hn : env.n = buf.length) :
    writeBuf w fs buf env =
      (((buf.length : Int), env.writeErr), { w with size := w.size + buf.length },
        if buf = [] then fs
        else fs.set f (some { data := file.data ++ buf, modTime := env.writeTime })) := by
  simp only [writeBuf, hopen, hn, fileWrite_full fs f buf _ _ file hf]
  by_cases hb : buf = []
  · subst hb
    cases w
    simpa using hopen
  · have hpos : (0 : Int) < (buf.length : Int) := by
      have := List.length_pos.mpr hb
      omega
    simp [hpos]

theorem FS.content_congr (fs fs1 : FS) (i : Fin 2) (h : fs1.get i = fs.get i) :
    fs1.content i = fs.content i := by
  simp [FS.content, h]

theorem FS.size_congr (fs fs1 : FS) (i : Fin 2) (h : fs1.get i = fs.get i) :
    fs1.size i = fs.size i := by
  simp [FS.size, FS.content, h]

/-- One fully successful `Write` on a writer that tracks its active file: the
outcome in both branches of the threshold test. -/
theorem Write_step (w : writer) (fs : FS) (buf : List Byte) (env : WriteEnv)
    (ht : Tracks w fs) (henv : env.ok buf) :
    (Write w fs buf env).1 = ((buf.length : Int), none) ∧
    (Write w fs buf env).2.1.maxHalfSize = w.maxHalfSize ∧
    Tracks (Write w fs buf env).2.1 (Write w fs buf env).2.2 ∧
    ((w.size < w.maxHalfSize ∧ afterRotate w fs env = fs ∧
        (Write w fs buf env).2.1.index = w.index ∧
        (Write w fs buf env).2.2.content w.index = fs.content w.index ++ buf ∧
        (Write w fs buf env).2.2.get (1 - w.index) = fs.get (1 - w.index)) ∨
      (w.maxHalfSize ≤ w.size ∧
        afterRotate w fs env = fs.set (1 - w.index) (some { data := [], modTime := env.openTime }) ∧
        (Write w fs buf env).2.1.index = 1 - w.index ∧
        (Write w fs buf env).2.2.content (1 - w.index) = buf ∧
        (Write w fs buf env).2.2.get w.index = fs.get w.index)) := by
  obtain ⟨hopen, ⟨f, hact⟩, hsize⟩ := ht
  obtain ⟨ho, hc, hn, he⟩ := henv
  by_cases hlt : w.size < w.maxHalfSize
  · have hnot : ¬ (w.size ≥ w.maxHalfSize) := by omega
    have har : afterRotate w fs env = fs := by simp [afterRotate, hopen, hnot]
    rw [Write_below w fs buf env _ hopen hlt, writeBuf_full w fs buf env _ f hopen hact hn, he]
    have hc1 : (if buf = [] then fs
        else fs.set w.index (some { data := f.data ++ buf, modTime := env.writeTime })).content
          w.index = fs.content w.index ++ buf := by
      by_cases hb : buf = []
      · simp [hb]
      · simp [hb, FS.content, FS.get_set_same, hact]
    have hg1 : (if buf = [] then fs
        else fs.set w.index (some { data := f.data ++ buf, modTime := env.writeTime })).get
          (1 - w.index) = fs.get (1 - w.index) := by
      by_cases hb : buf = []
      · simp [hb]
      · simp [hb, FS.get_set_other _ _ _ _ (one_sub_ne w.index)]
    have hex : ∃ g, (if buf = [] then fs
        else fs.set w.index (some { data := f.data ++ buf, modTime := env.writeTime })).get
          w.index = some g := by
      by_cases hb : buf = []
      · simp [hb, hact]
      · simp [hb, FS.get_set_same]
    refine ⟨rfl, rfl, ⟨hopen, hex, ?_⟩, Or.inl ⟨hlt, har, rfl, hc1, hg1⟩⟩
    simp only [FS.size, hc1, List.length_append, hsize]
    push_cast
    rfl
  · have hge : w.maxHalfSize ≤ w.size := by omega
    have har : afterRotate w fs env =
        fs.set (1 - w.index) (some { data := [], modTime := env.openTime }) := by
      simp [afterRotate, hopen, hge, toOther, openTrunc, ho]
    rw [Write_rotate w fs buf env _ hopen hge ho hc,
      writeBuf_full _ _ buf env (1 - w.index) { data := [], modTime := env.openTime } rfl
        (FS.get_set_same _ _ _) hn, he]
    have hc1 : (if buf = [] then fs.set (1 - w.index) (some { data := [], modTime := env.openTime })
        else (fs.set (1 - w.index) (some { data := [], modTime := env.openTime })).set (1 - w.index)
          (some { data := [] ++ buf, modTime := env.writeTime })).content (1 - w.index) = buf := by
      by_cases hb : buf = []
      · simp [hb, FS.content, FS.get_set_same]
      · simp [hb, FS.content, FS.get_set_same]
    have hg1 : (if buf = [] then fs.set (1 - w.index) (some { data := [], modTime := env.openTime })
        else (fs.set (1 - w.index) (some { data := [], modTime := env.openTime })).set (1 - w.index)
          (some { data := [] ++ buf, modTime := env.writeTime })).get w.index = fs.get w.index := by
      by_cases hb : buf = []
      · simp [hb, FS.get_set_other _ _ _ _ (one_sub_ne w.index).symm]
      · simp [hb, FS.get_set_other _ _ _ _ (one_sub_ne w.index).symm]
    have hex : ∃ g, (if buf = [] then
          fs.set (1 - w.index) (some { data := [], modTime := env.openTime })
        else (fs.set (1 - w.index) (some { data := [], modTime := env.openTime })).set (1 - w.index)
          (some { data := [] ++ buf, modTime := env.writeTime })).get (1 - w.index) = some g := by
      by_cases hb : buf = []
      · simp [hb, FS.get_set_same]
      · simp [hb, FS.get_set_same]
    refine ⟨rfl, rfl, ⟨rfl, hex, ?_⟩, Or.inr ⟨hge, har, rfl, hc1, hg1⟩⟩
    simp only [FS.size, hc1]
    simp

/-- C1: on an open writer whose handle is the active file, a `Write(buf)` the
operating system lets succeed in full either appends `buf` to the active file
(size below the threshold: same index, size grown by `len(buf)`, other file
untouched) or rotates exactly once (size at or over the threshold: index
flipped, the file rotated into holds exactly `buf`, size `len(buf)`, the
previously active file untouched); both return `(len(buf), nil)`. -/
theorem Write_ok (w : writer) (fs : FS) (buf : List Byte) (env : WriteEnv) (f : File)
    (hopen : w.file = some w.index) (hact : fs.get w.index = some f) (henv : env.ok buf) :
    (w.size < w.maxHalfSize →
      (Write w fs buf env).1 = ((buf.length : Int), none) ∧
      (Write w fs buf env).2.1 = { w with size := w.size + buf.length } ∧
      ((Write w fs buf env).2.2.get w.index).map File.data = some (f.data ++ buf) ∧
      (Write w fs buf env).2.2.get (1 - w.index) = fs.get (1 - w.index)) ∧
    (w.maxHalfSize ≤ w.size →
      (Write w fs buf env).1 = ((buf.length : Int), none) ∧
      (Write w fs buf env).2.1 =
        { w with index := 1 - w.index, file := some (1 - w.index), size := buf.length } ∧
      ((Write w fs buf env).2.2.get (1 - w.index)).map File.data = some buf ∧
      (Write w fs buf env).2.2.get w.index = fs.get w.index) := by
  obtain ⟨ho, hc, hn, he⟩ := henv
  constructor
  · intro hlt
    rw [Write_below w fs buf env _ hopen hlt, writeBuf_full w fs buf env _ f hopen hact hn, he]
    refine ⟨rfl, rfl, ?_, ?_⟩
    · by_cases hb : buf = []
      · simp [hb, hact]
      · simp [hb, FS.get_set_same]
    · by_cases hb : buf = []
      · simp [hb]
      · simp [hb, FS.get_set_other _ _ _ _ (one_sub_ne w.index)]
  · intro hge
    rw [Write_rotate w fs buf env _ hopen hge ho hc,
      writeBuf_full _ _ buf env (1 - w.index) { data := [], modTime := env.openTime } rfl
        (FS.get_set_same _ _ _) hn, he]
    refine ⟨rfl, by simp, ?_, ?_⟩
    · by_cases hb : buf = []
      · simp [hb, FS.get_set_same]
      · simp [hb, FS.get_set_same]
    · by_cases hb : buf = []
      · simp [hb, FS.get_set_other _ _ _ _ (one_sub_ne w.index).symm]
      · simp [hb, FS.get_set_other _ _ _ _ (one_sub_ne w.index).symm]

/-- The test of the repository, with `maxSize` 20: `New` gives `testStart`;
after two writes of the 7 bytes `b1` the file A holds 14 bytes and B does not
exist; the third write rotates and leaves 7 bytes in B and A untouched; the fifth rotates back and leaves 7 bytes in A. -/
theorem Write_ok_witness :
    ((writes testStart (testWrites 2)).1.file = some (writes testStart (testWrites 2)).1.index ∧
      (writes testStart (testWrites 2)).2.get (writes testStart (testWrites 2)).1.index =
        some { data := b1 ++ b1, modTime := 4 } ∧
      (okEnv b1 5).ok b1) ∧
    ((Write (writes testStart (testWrites 2)).1 (writes testStart (testWrites 2)).2 b1
        (okEnv b1 5)).1 = (7, none) ∧
      (Write (writes testStart (testWrites 2)).1 (writes testStart (testWrites 2)).2 b1
        (okEnv b1 5)).2.1 = { maxHalfSize := 10, index := 1, file := some 1, size := 7 } ∧
      ((Write (writes testStart (testWrites 2)).1 (writes testStart (testWrites 2)).2 b1
        (okEnv b1 5)).2.2.get 1).map File.data = some b1 ∧
      (Write (writes testStart (testWrites 2)).1 (writes testStart (testWrites 2)).2 b1
        (okEnv b1 5)).2.2.get 0 = some { data := b1 ++ b1, modTime := 4 }) ∧
    New emptyFS 20 (okNew 0) = (.ok testStart.1, testStart.2) ∧
    (writes testStart (testWrites 2)).2.size 0 = 14 ∧
    (writes testStart (testWrites 2)).2.B = none ∧
    (writes testStart (testWrites 3)).2.size 1 = 7 ∧
    (writes testStart (testWrites 3)).2.size 0 = 14 ∧
    (writes testStart (testWrites 5)).2.size 0 = 7 ∧
    (writes testStart (testWrites 5)).1.index = 0 :=
  ⟨⟨by decide, by decide, by decide⟩,
    (Write_ok (writes testStart (testWrites 2)).1 (writes testStart (testWrites 2)).2 b1
      (okEnv b1 5) { data := b1 ++ b1, modTime := 4 } (by decide) (by decide) (by decide)).2
      (by decide),
    rfl, by decide, by decide, by decide, by decide, by decide, by decide⟩

/-- C2 as stated fails: with `maxSize` 20 on a fresh log, after the first three
writes of the test, 7 bytes each, A holds 14 bytes and B holds 7, as the test
requires, 21 in all; after the fourth both hold 14 bytes, 28 in all; and one
write of 21 bytes leaves 21 bytes in A alone.  All exceed `maxSize`.  And on a
base path whose A already holds 21 bytes `New(path, 20)` returns a writer
without touching the file, so the bound is exceeded before any write. -/
theorem combined_size_exceeds_maxSize :
    New emptyFS 20 (okNew 0) = (.ok testStart.1, testStart.2) ∧
    (∀ p ∈ testWrites 4, p.2.ok p.1) ∧
    (writes testStart (testWrites 3)).2.size 0 = 14 ∧
    (writes testStart (testWrites 3)).2.size 1 = 7 ∧
    (writes testStart (testWrites 4)).2.size 0 = 14 ∧
    (writes testStart (testWrites 4)).2.size 1 = 14 ∧
    ¬ ((writes testStart (testWrites 4)).2.size 0 + (writes testStart (testWrites 4)).2.size 1
        ≤ 20) ∧
    (Write testStart.1 testStart.2 (b1 ++ b1 ++ b1) (okEnv (b1 ++ b1 ++ b1) 1)).1 = (21, none) ∧
    (Write testStart.1 testStart.2 (b1 ++ b1 ++ b1) (okEnv (b1 ++ b1 ++ b1) 1)).2.2.size 0
      = 21 ∧
    New { A := some { data := b1 ++ b1 ++ b1, modTime := 3 }, B := none } 20 (okNew 0) =
      (.ok { maxHalfSize := 10, index := 0, file := some 0, size := 21 },
        { A := some { data := b1 ++ b1 ++ b1, modTime := 3 }, B := none }) := by
  refine ⟨rfl, by decide, by decide, by decide, by decide, by decide, by decide, by decide,
    by decide, rfl⟩

/-! ## A fresh log -/

/-- What a successful `New` gives when neither file exists. -/
theorem New_fresh (maxSize : Int) (nenv : NewEnv) (w0 : writer) (fs0 : FS)
    (hnew : New emptyFS maxSize nenv = (.ok w0, fs0)) :
    0 < maxSize ∧
    w0 = { maxHalfSize := maxSize.tdiv 2, index := 0, file := some 0, size := 0 } ∧
    fs0 = { A := some { data := [], modTime := nenv.createTime }, B := none } := by
  unfold New at hnew
  by_cases hm : maxSize ≤ 0
  · simp [hm] at hnew
  · rcases h0 : nenv.open0 with _ | c0 <;> rcases h1 : nenv.open1 with _ | c1 <;>
      rcases hc : nenv.create with _ | e <;>
      simp [hm, openAppend, openTrunc, emptyFS, FS.get, FS.set, IsNotExist, h0, h1, hc] at hnew
    obtain ⟨hw, hfs⟩ := hnew
    exact ⟨by omega, hw.symm, hfs.symm⟩

theorem tdiv_two_nonneg (maxSize : Int) (h : 0 < maxSize) : 0 ≤ maxSize.tdiv 2 :=
  Int.tdiv_nonneg (le_of_lt h) (by decide)

theorem Tracks_fresh (m : Int) (t : Nat) :
    Tracks { maxHalfSize := m, index := 0, file := some 0, size := 0 }
      { A := some { data := [], modTime := t }, B := none } := by
  refine ⟨rfl, ⟨_, rfl⟩, ?_⟩
  simp [FS.size, FS.content, FS.get]

/-- The size bound of both files is kept along fully successful writes of at
most `L` bytes each, at every file-system state passed through. -/
theorem fsTrace_bound (L : Nat) (ws : List (List Byte × WriteEnv)) :
    ∀ (w : writer) (fs : FS), Tracks w fs → 0 ≤ w.maxHalfSize →
      (∀ i, (fs.size i : Int) ≤ w.maxHalfSize + L) →
      (∀ p ∈ ws, p.2.ok p.1 ∧ p.1.length ≤ L) →
      ∀ fs1 ∈ fsTrace (w, fs) ws, ∀ i, (fs1.size i : Int) ≤ w.maxHalfSize + L := by
  induction ws with
  | nil =>
    intro w fs _ _ hb _ fs1 hmem i
    simp only [fsTrace, List.mem_singleton] at hmem
    subst hmem
    exact hb i
  | cons p rest ih =>
    obtain ⟨buf, env⟩ := p
    intro w fs ht hm hb hws fs1 hmem i
    obtain ⟨hok, hlen⟩ := hws (buf, env) (List.mem_cons_self _ _)
    simp only at hok hlen
    obtain ⟨_, hmax, ht1, hcase⟩ := Write_step w fs buf env ht hok
    have hsz := ht.2.2
    have hsz1 := ht1.2.2
    simp only [fsTrace, List.mem_cons] at hmem
    -- the bound after the call, and at the state after the rotation step
    have hafter : (∀ j, ((afterRotate w fs env).size j : Int) ≤ w.maxHalfSize + L) ∧
        (∀ j, (((Write w fs buf env).2.2).size j : Int) ≤ w.maxHalfSize + L) := by
      rcases hcase with ⟨hlt, har, hidx, hcont, hget⟩ | ⟨hge, har, hidx, hcont, hget⟩
      · refine ⟨fun j => by rw [har]; exact hb j, fun j => ?_⟩
        rcases eq_or_eq_one_sub w.index j with hj | hj
        · subst hj
          have : ((Write w fs buf env).2.2).size w.index = fs.size w.index + buf.length := by
            simp [FS.size, hcont]
          rw [this]
          push_cast
          omega
        · subst hj
          rw [FS.size_congr _ _ _ hget]
          exact hb _
      · refine ⟨fun j => ?_, fun j => ?_⟩
        · rw [har]
          rcases eq_or_eq_one_sub w.index j with hj | hj
          · subst hj
            rw [FS.size_congr _ _ _ (FS.get_set_other _ _ _ _ (one_sub_ne w.index).symm)]
            exact hb _
          · subst hj
            have : (fs.set (1 - w.index) (some { data := [], modTime := env.openTime })).size
                (1 - w.index) = 0 := by
              simp [FS.size, FS.content, FS.get_set_same]
            rw [this]
            push_cast
            omega
        · rcases eq_or_eq_one_sub w.index j with hj | hj
          · subst hj
            rw [FS.size_congr _ _ _ hget]
            exact hb _
          · subst hj
            have : ((Write w fs buf env).2.2).size (1 - w.index) = buf.length := by
              simp [FS.size, hcont]
            rw [this]
            omega
    rcases hmem with h | h | h
    · subst h
      exact hb i
    · subst h
      exact hafter.1 i
    · have := ih (Write w fs buf env).2.1 (Write w fs buf env).2.2 ht1 (by rw [hmax]; exact hm)
        (by rw [hmax]; exact hafter.2)
        (fun q hq => hws q (List.mem_cons_of_mem _ hq)) fs1 h i
      rw [hmax] at this
      exact this

/-- C3: on a log started by `New` where neither file exists, along every
sequence of fully successful writes of at most `L` bytes each, at every
file-system state passed through (before and after each call and after each
rotation step) each of the two files holds at most `maxSize / 2 + L` bytes. -/
theorem file_size_le_half_plus_write (maxSize : Int) (nenv : NewEnv) (w0 : writer) (fs0 : FS)
    (hnew : New emptyFS maxSize nenv = (.ok w0, fs0)) (L : Nat)
    (ws : List (List Byte × WriteEnv)) (hws : ∀ p ∈ ws, p.2.ok p.1 ∧ p.1.length ≤ L) :
    ∀ fs ∈ fsTrace (w0, fs0) ws, ∀ i, (fs.size i : Int) ≤ maxSize.tdiv 2 + L := by
  obtain ⟨hpos, hw, hfs⟩ := New_fresh maxSize nenv w0 fs0 hnew
  subst hw hfs
  have hm := tdiv_two_nonneg maxSize hpos
  refine fsTrace_bound L ws _ _ (Tracks_fresh _ _) hm (fun i => ?_) hws
  have : ∀ j : Fin 2, (FS.mk (some { data := [], modTime := nenv.createTime }) none).size j = 0 := by
    intro j
    simp only [FS.size, FS.content, FS.get]
    split_ifs <;> simp
  rw [this]
  simp only [Nat.cast_zero]
  omega

/-- C3 at the test: with `maxSize` 20 and the five writes of 7 bytes, no file
ever holds more than `10 + 7` bytes. -/
theorem file_size_le_half_plus_write_witness :
    New emptyFS 20 (okNew 0) = (.ok testStart.1, testStart.2) ∧
    (∀ p ∈ testWrites 5, p.2.ok p.1 ∧ p.1.length ≤ 7) ∧
    (∀ fs ∈ fsTrace testStart (testWrites 5), ∀ i,
      (fs.size i : Int) ≤ (20 : Int).tdiv 2 + (7 : Nat)) :=
  ⟨rfl, by decide,
    file_size_le_half_plus_write 20 (okNew 0) testStart.1 testStart.2 rfl 7 (testWrites 5)
      (by decide)⟩

/-! ## Retained history -/

theorem writes_append (s : writer × FS) (xs ys : List (List Byte × WriteEnv)) :
    writes s (xs ++ ys) = writes (writes s xs) ys := by
  induction xs generalizing s with
  | nil => rfl
  | cons p rest ih =>
    obtain ⟨buf, env⟩ := p
    simp only [List.cons_append, writes]
    exact ih _

theorem suffix_append_both (a b k : List Byte) (h : a <:+ b) : a ++ k <:+ b ++ k := by
  obtain ⟨t, ht⟩ := h
  exact ⟨t, by rw [← ht, List.append_assoc]⟩

/-- Along fully successful writes the writer keeps tracking its active file,
the two files together stay a suffix of everything written, and a non-active
file that holds `maxHalfSize` bytes keeps doing so. -/
theorem writes_keep (ws : List (List Byte × WriteEnv)) :
    ∀ (w : writer) (fs : FS) (h : List Byte), Tracks w fs →
      (∀ p ∈ ws, p.2.ok p.1) →
      fs.content (1 - w.index) ++ fs.content w.index <:+ h →
      Tracks (writes (w, fs) ws).1 (writes (w, fs) ws).2 ∧
      (writes (w, fs) ws).1.maxHalfSize = w.maxHalfSize ∧
      ((writes (w, fs) ws).2.content (1 - (writes (w, fs) ws).1.index) ++
          (writes (w, fs) ws).2.content (writes (w, fs) ws).1.index
        <:+ h ++ (ws.map Prod.fst).flatten) ∧
      (w.maxHalfSize ≤ fs.size (1 - w.index) →
        w.maxHalfSize ≤ (writes (w, fs) ws).2.size (1 - (writes (w, fs) ws).1.index)) := by
  induction ws with
  | nil =>
    intro w fs h ht _ hs
    simpa [writes] using ⟨ht, hs⟩
  | cons p rest ih =>
    obtain ⟨buf, env⟩ := p
    intro w fs h ht hws hs
    have hok := hws (buf, env) (List.mem_cons_self _ _)
    simp only at hok
    obtain ⟨_, hmax, ht1, hcase⟩ := Write_step w fs buf env ht hok
    have hs1 : (Write w fs buf env).2.2.content (1 - (Write w fs buf env).2.1.index) ++
        (Write w fs buf env).2.2.content (Write w fs buf env).2.1.index <:+ h ++ buf := by
      rcases hcase with ⟨_, _, hidx, hcont, hget⟩ | ⟨_, _, hidx, hcont, hget⟩
      · rw [hidx, hcont, FS.content_congr _ _ _ hget, ← List.append_assoc]
        exact suffix_append_both _ _ _ hs
      · rw [hidx, one_sub_one_sub, hcont, FS.content_congr _ _ _ hget]
        exact suffix_append_both _ _ _ ((List.suffix_append _ _).trans hs)
    have hr1 : w.maxHalfSize ≤ fs.size (1 - w.index) →
        (Write w fs buf env).2.1.maxHalfSize ≤
          (Write w fs buf env).2.2.size (1 - (Write w fs buf env).2.1.index) := by
      intro hr
      rcases hcase with ⟨_, _, hidx, hcont, hget⟩ | ⟨hge, _, hidx, hcont, hget⟩
      · rw [hmax, hidx, FS.size_congr _ _ _ hget]
        exact hr
      · rw [hmax, hidx, one_sub_one_sub, FS.size_congr _ _ _ hget, ← ht.2.2]
        exact hge
    obtain ⟨hT, hM, hS, hR⟩ := ih (Write w fs buf env).2.1 (Write w fs buf env).2.2 (h ++ buf) ht1
      (fun q hq => hws q (List.mem_cons_of_mem _ hq)) hs1
    refine ⟨hT, by rw [← hmax]; exact hM, ?_, fun hr => ?_⟩
    · simpa [writes, List.append_assoc] using hS
    · have := hR (hr1 hr)
      rw [hmax] at this
      exact this

/-- C4: on a log started by `New` where neither file exists and written by
fully successful writes, once a write has rotated (the write `x`, found at a
size at or over the threshold), at every later point the non-active file holds
at least `maxSize / 2` bytes, so do both files together, and the non-active
file followed by the active one is the tail of everything written. -/
theorem history_kept_after_rotation (maxSize : Int) (nenv : NewEnv) (w0 : writer) (fs0 : FS)
    (hnew : New emptyFS maxSize nenv = (.ok w0, fs0))
    (pre post : List (List Byte × WriteEnv)) (x : List Byte × WriteEnv)
    (hws : ∀ p ∈ pre ++ x :: post, p.2.ok p.1)
    (hrot : (writes (w0, fs0) pre).1.maxHalfSize ≤ (writes (w0, fs0) pre).1.size) :
    maxSize.tdiv 2 ≤ (writes (w0, fs0) (pre ++ x :: post)).2.size
        (1 - (writes (w0, fs0) (pre ++ x :: post)).1.index) ∧
    maxSize.tdiv 2 ≤ ((writes (w0, fs0) (pre ++ x :: post)).2.size 0 +
        (writes (w0, fs0) (pre ++ x :: post)).2.size 1 : Nat) ∧
    (writes (w0, fs0) (pre ++ x :: post)).2.content
        (1 - (writes (w0, fs0) (pre ++ x :: post)).1.index) ++
      (writes (w0, fs0) (pre ++ x :: post)).2.content
        (writes (w0, fs0) (pre ++ x :: post)).1.index
      <:+ ((pre ++ x :: post).map Prod.fst).flatten := by
  obtain ⟨hpos, hw, hfs⟩ := New_fresh maxSize nenv w0 fs0 hnew
  have ht0 : Tracks w0 fs0 := by rw [hw, hfs]; exact Tracks_fresh _ _
  have hs0 : fs0.content (1 - w0.index) ++ fs0.content w0.index <:+ [] := by
    rw [hw, hfs]
    simp [FS.content, FS.get]
  have hm0 : w0.maxHalfSize = maxSize.tdiv 2 := by rw [hw]
  -- the whole run
  obtain ⟨_, _, hS, _⟩ := writes_keep (pre ++ x :: post) w0 fs0 [] ht0 hws hs0
  -- up to the rotating write
  obtain ⟨htp, hmp, _, _⟩ := writes_keep pre w0 fs0 [] ht0
    (fun q hq => hws q (List.mem_append_left _ hq)) hs0
  obtain ⟨bx, ex⟩ := x
  have hokx := hws (bx, ex) (List.mem_append_right _ (List.mem_cons_self _ _))
  simp only at hokx
  obtain ⟨_, hmx, htx, hcase⟩ := Write_step _ _ bx ex htp hokx
  have hrx : (Write (writes (w0, fs0) pre).1 (writes (w0, fs0) pre).2 bx ex).2.1.maxHalfSize ≤
      (Write (writes (w0, fs0) pre).1 (writes (w0, fs0) pre).2 bx ex).2.2.size
        (1 - (Write (writes (w0, fs0) pre).1 (writes (w0, fs0) pre).2 bx ex).2.1.index) := by
    rcases hcase with ⟨hlt, _⟩ | ⟨hge, _, hidx, _, hget⟩
    · omega
    · rw [hmx, hidx, one_sub_one_sub, FS.size_congr _ _ _ hget, ← htp.2.2]
      exact hge
  obtain ⟨_, _, _, hR⟩ := writes_keep post _ _ _ htx
    (fun q hq => hws q (List.mem_append_right _ (List.mem_cons_of_mem _ hq)))
    (List.suffix_refl _)
  have hfin : writes (w0, fs0) (pre ++ (bx, ex) :: post) =
      writes (Write (writes (w0, fs0) pre).1 (writes (w0, fs0) pre).2 bx ex).2 post := by
    rw [writes_append]
    rfl
  have h1 : maxSize.tdiv 2 ≤ (writes (w0, fs0) (pre ++ (bx, ex) :: post)).2.size
      (1 - (writes (w0, fs0) (pre ++ (bx, ex) :: post)).1.index) := by
    have := hR hrx
    rw [hmx, hmp, hm0] at this
    rw [hfin]
    exact this
  refine ⟨h1, ?_, ?_⟩
  · have hle : ∀ (fs : FS) (j : Fin 2), fs.size j ≤ fs.size 0 + fs.size 1 := by
      intro fs j
      rcases eq_or_eq_one_sub 0 j with hj | hj
      · subst hj; omega
      · subst hj
        have : (1 : Fin 2) - 0 = 1 := by decide
        rw [this]; omega
    have := hle (writes (w0, fs0) (pre ++ (bx, ex) :: post)).2
      (1 - (writes (w0, fs0) (pre ++ (bx, ex) :: post)).1.index)
    omega
  · simpa using hS

/-- C4 at the test: the third write finds 14 bytes in A against the threshold
10 and rotates; after the fourth write the non-active file A still holds at
least 10 bytes and A followed by B is the tail of the four buffers. -/
theorem history_kept_after_rotation_witness :
    New emptyFS 20 (okNew 0) = (.ok testStart.1, testStart.2) ∧
    (∀ p ∈ testWrites 2 ++ (b1, okEnv b1 5) :: [(b1, okEnv b1 7)], p.2.ok p.1) ∧
    (writes (testStart.1, testStart.2) (testWrites 2)).1.maxHalfSize ≤
      (writes (testStart.1, testStart.2) (testWrites 2)).1.size ∧
    ((20 : Int).tdiv 2 ≤ (writes (testStart.1, testStart.2)
          (testWrites 2 ++ (b1, okEnv b1 5) :: [(b1, okEnv b1 7)])).2.size
        (1 - (writes (testStart.1, testStart.2)
          (testWrites 2 ++ (b1, okEnv b1 5) :: [(b1, okEnv b1 7)])).1.index) ∧
      (20 : Int).tdiv 2 ≤ ((writes (testStart.1, testStart.2)
          (testWrites 2 ++ (b1, okEnv b1 5) :: [(b1, okEnv b1 7)])).2.size 0 +
        (writes (testStart.1, testStart.2)
          (testWrites 2 ++ (b1, okEnv b1 5) :: [(b1, okEnv b1 7)])).2.size 1 : Nat) ∧
      (writes (testStart.1, testStart.2)
          (testWrites 2 ++ (b1, okEnv b1 5) :: [(b1, okEnv b1 7)])).2.content
        (1 - (writes (testStart.1, testStart.2)
          (testWrites 2 ++ (b1, okEnv b1 5) :: [(b1, okEnv b1 7)])).1.index) ++
        (writes (testStart.1, testStart.2)
          (testWrites 2 ++ (b1, okEnv b1 5) :: [(b1, okEnv b1 7)])).2.content
        (writes (testStart.1, testStart.2)
          (testWrites 2 ++ (b1, okEnv b1 5) :: [(b1, okEnv b1 7)])).1.index
        <:+ ((testWrites 2 ++ (b1, okEnv b1 5) :: [(b1, okEnv b1 7)]).map Prod.fst).flatten) :=
  ⟨rfl, by decide, by decide,
    history_kept_after_rotation 20 (okNew 0) testStart.1 testStart.2 rfl (testWrites 2)
      [(b1, okEnv b1 7)] (b1, okEnv b1 5) (by decide) (by decide)⟩

/-! ## `New` on the three kinds of directory -/

/-- C5: when both files exist and the two opens and the two stats succeed,
`New` with a positive `maxSize` returns a writer on the file with the later
modification time (index 0 when A is newer, index 1 when B is newer; in no
case is the other file newer than the active one), open on that file, its
size the on-disk size of that file, and changes neither file. -/
theorem New_both_exist (fs : FS) (a b : File) (maxSize : Int) (env : NewEnv)
    (hA : fs.A = some a) (hB : fs.B = some b) (hm : 0 < maxSize)
    (ho0 : env.open0 = none) (ho1 : env.open1 = none)
    (hs0 : env.stat0 = none) (hs1 : env.stat1 = none) :
    ∃ w, New fs maxSize env = (.ok w, fs) ∧
      w.maxHalfSize = maxSize.tdiv 2 ∧ w.file = some w.index ∧
      w.size = (fs.size w.index : Nat) ∧
      (b.modTime < a.modTime → w.index = 0) ∧
      (a.modTime < b.modTime → w.index = 1) ∧
      (∀ f g, fs.get w.index = some f → fs.get (1 - w.index) = some g →
        g.modTime ≤ f.modTime) := by
  have hnot : ¬ maxSize ≤ 0 := by omega
  by_cases hlt : b.modTime < a.modTime
  · refine ⟨{ maxHalfSize := maxSize.tdiv 2, index := 0, file := some 0, size := a.data.length },
      ?_, rfl, rfl, ?_, fun _ => rfl, fun h => by omega, ?_⟩
    · simp [New, hnot, openAppend, stat, FS.get, hA, hB, ho0, ho1, hs0, hs1, hlt]
    · simp [FS.size, FS.content, FS.get, hA]
    · intro f g hf hg
      simp [FS.get, hA, hB] at hf hg
      subst hf hg
      omega
  · refine ⟨{ maxHalfSize := maxSize.tdiv 2, index := 1, file := some 1, size := b.data.length },
      ?_, rfl, rfl, ?_, fun h => absurd h hlt, fun _ => rfl, ?_⟩
    · simp [New, hnot, openAppend, stat, FS.get, hA, hB, ho0, ho1, hs0, hs1, hlt]
    · simp [FS.size, FS.content, FS.get, hB]
    · intro f g hf hg
      simp [FS.get, hA, hB] at hf hg
      subst hf hg
      omega

/-- C5 at the test: after the six writes A (stamped 12) is newer than B
(stamped 8), and the reopening `New` returns a writer on A with size 14. -/
theorem New_both_exist_witness :
    ((writes testStart (testWrites 6)).2.A = some { data := b1 ++ b1, modTime := 12 } ∧
      (writes testStart (testWrites 6)).2.B = some { data := b1 ++ b1, modTime := 8 } ∧
      (0 : Int) < 20 ∧ (okNew 0).open0 = none ∧ (okNew 0).open1 = none ∧
      (okNew 0).stat0 = none ∧ (okNew 0).stat1 = none) ∧
    (∃ w, New (writes testStart (testWrites 6)).2 20 (okNew 0) =
        (.ok w, (writes testStart (testWrites 6)).2) ∧
      w.maxHalfSize = (20 : Int).tdiv 2 ∧ w.file = some w.index ∧
      w.size = ((writes testStart (testWrites 6)).2.size w.index : Nat) ∧
      (8 < 12 → w.index = 0) ∧
      (12 < 8 → w.index = 1) ∧
      (∀ f g, (writes testStart (testWrites 6)).2.get w.index = some f →
        (writes testStart (testWrites 6)).2.get (1 - w.index) = some g →
        g.modTime ≤ f.modTime)) ∧
    New (writes testStart (testWrites 6)).2 20 (okNew 0) =
      (.ok { maxHalfSize := 10, index := 0, file := some 0, size := 14 },
        (writes testStart (testWrites 6)).2) :=
  ⟨⟨by decide, by decide, by decide, rfl, rfl, rfl, rfl⟩,
    New_both_exist (writes testStart (testWrites 6)).2 { data := b1 ++ b1, modTime := 12 }
      { data := b1 ++ b1, modTime := 8 } 20 (okNew 0) (by decide) (by decide) (by decide)
      rfl rfl rfl rfl,
    rfl⟩

/-- C7 as stated fails: with neither file present, when the creating open of
`path.A` fails (here with not-found, as for a base path in a directory that
does not exist) `New` returns that error and no writer, and `path.A` is not
created.  The same happens when one of the first two opens fails with an error
other than not-found (here error 13, permission denied). -/
theorem New_neither_exists_create_fails :
    New emptyFS 20 { okNew 0 with create := some .notExist } = (.error .notExist, emptyFS) ∧
    (New emptyFS 20 { okNew 0 with create := some .notExist }).2.A = none ∧
    New emptyFS 20 { okNew 0 with open0 := some 13 } = (.error (.sys 13), emptyFS) ∧
    ¬ ∃ w fs1, New emptyFS 20 { okNew 0 with create := some .notExist } = (.ok w, fs1) := by
  refine ⟨rfl, rfl, rfl, ?_⟩
  rintro ⟨w, fs1, h⟩
  have h1 : New emptyFS 20 { okNew 0 with create := some .notExist }
      = (.error .notExist, emptyFS) := rfl
  rw [h1] at h
  cases h

/-- C7, amended: with neither file present, both opens failing with not-found
and `maxSize` positive, `New` creates `path.A` empty, does not create
`path.B` and returns a writer with index 0 and size 0 when the creating open
succeeds; when it fails `New` returns its error and both files stay absent. -/
theorem New_neither_exists (maxSize : Int) (env : NewEnv) (hm : 0 < maxSize)
    (ho0 : env.open0 = none) (ho1 : env.open1 = none) :
    (env.create = none →
      New emptyFS maxSize env =
        (.ok { maxHalfSize := maxSize.tdiv 2, index := 0, file := some 0, size := 0 },
          { A := some { data := [], modTime := env.createTime }, B := none })) ∧
    (∀ e, env.create = some e → New emptyFS maxSize env = (.error e, emptyFS)) := by
  have hnot : ¬ maxSize ≤ 0 := by omega
  constructor
  · intro hc
    simp [New, hnot, openAppend, openTrunc, emptyFS, FS.get, FS.set, IsNotExist, ho0, ho1, hc]
  · intro e hc
    simp [New, hnot, openAppend, openTrunc, emptyFS, FS.get, IsNotExist, ho0, ho1, hc]

/-- C7 at the test: `New(path, 20)` on the fresh directory creates A empty,
leaves B absent and returns a writer with index 0 and size 0. -/
theorem New_neither_exists_witness :
    ((0 : Int) < 20 ∧ (okNew 0).open0 = none ∧ (okNew 0).open1 = none ∧
      (okNew 0).create = none) ∧
    New emptyFS 20 (okNew 0) =
      (.ok { maxHalfSize := (20 : Int).tdiv 2, index := 0, file := some 0, size := 0 },
        { A := some { data := [], modTime := (okNew 0).createTime }, B := none }) :=
  ⟨⟨by decide, rfl, rfl, rfl⟩, (New_neither_exists 20 (okNew 0) (by decide) rfl rfl).1 rfl⟩

/-- C8 as stated fails: with only `path.A` present, when opening it fails
(here with error 13, permission denied) `New` returns that error and no
writer; so it does when the open succeeds and `Stat` fails (here error 5). -/
theorem New_one_exists_open_fails :
    New { A := some { data := b1, modTime := 3 }, B := none } 20
        { okNew 0 with open0 := some 13 }
      = (.error (.sys 13), { A := some { data := b1, modTime := 3 }, B := none }) ∧
    New { A := some { data := b1, modTime := 3 }, B := none } 20
        { okNew 0 with stat0 := some (.sys 5) }
      = (.error (.sys 5), { A := some { data := b1, modTime := 3 }, B := none }) ∧
    ¬ ∃ w fs1, New { A := some { data := b1, modTime := 3 }, B := none } 20
        { okNew 0 with open0 := some 13 } = (.ok w, fs1) := by
  refine ⟨rfl, rfl, ?_⟩
  rintro ⟨w, fs1, h⟩
  have h1 : New { A := some { data := b1, modTime := 3 }, B := none } 20
        { okNew 0 with open0 := some 13 }
      = (.error (.sys 13), { A := some { data := b1, modTime := 3 }, B := none }) := rfl
  rw [h1] at h
  cases h

/-- C8, amended: when exactly one of the two files exists, its open and its
stat succeed, the open of the other fails with not-found and `maxSize` is
positive, `New` returns a writer on the existing file (index 0 for A, 1 for B)
with size its on-disk size, and leaves the file system as it was: the existing
file unchanged, the missing one not created. -/
theorem New_one_exists (fs : FS) (i : Fin 2) (f : File) (maxSize : Int) (env : NewEnv)
    (hm : 0 < maxSize) (hex : fs.get i = some f) (hno : fs.get (1 - i) = none)
    (ho0 : env.open0 = none) (ho1 : env.open1 = none)
    (hst : (if i = 0 then env.stat0 else env.stat1) = none) :
    New fs maxSize env =
      (.ok { maxHalfSize := maxSize.tdiv 2, index := i, file := some i, size := f.data.length },
        fs) := by
  have hnot : ¬ maxSize ≤ 0 := by omega
  have hi : i = 0 ∨ i = 1 := by
    have h2 : ∀ j : Fin 2, j = 0 ∨ j = 1 := by decide
    exact h2 i
  rcases hi with rfl | rfl
  · have hA : fs.A = some f := by simpa [FS.get] using hex
    have hB : fs.B = none := by simpa [FS.get] using hno
    simp only [if_true] at hst
    simp [New, hnot, openAppend, stat, FS.get, IsNotExist, hA, hB, ho0, ho1, hst]
  · have hB : fs.B = some f := by simpa [FS.get] using hex
    have hA : fs.A = none := by simpa [FS.get] using hno
    simp only [Fin.isValue, one_ne_zero, if_false] at hst
    simp [New, hnot, openAppend, stat, FS.get, IsNotExist, hA, hB, ho0, ho1, hst]

/-- C8 at the test: after the first two writes only A exists, with 14 bytes;
`New` then returns a writer on A with size 14 and leaves B absent. -/
theorem New_one_exists_witness :
    ((0 : Int) < 20 ∧
      (writes testStart (testWrites 2)).2.get 0 = some { data := b1 ++ b1, modTime := 4 } ∧
      (writes testStart (testWrites 2)).2.get (1 - 0) = none ∧
      (okNew 0).open0 = none ∧ (okNew 0).open1 = none ∧
      (if (0 : Fin 2) = 0 then (okNew 0).stat0 else (okNew 0).stat1) = none) ∧
    New (writes testStart (testWrites 2)).2 20 (okNew 0) =
      (.ok { maxHalfSize := (20 : Int).tdiv 2, index := 0, file := some 0,
             size := ((b1 ++ b1).length : Int) },
        (writes testStart (testWrites 2)).2) :=
  ⟨⟨by decide, by decide, by decide, rfl, rfl, rfl⟩,
    New_one_exists (writes testStart (testWrites 2)).2 0 { data := b1 ++ b1, modTime := 4 } 20
      (okNew 0) (by decide) (by decide) (by decide) rfl rfl rfl⟩

/-! ## The closed writer -/

theorem Close_file (w : writer) (fs : FS) (closeErr : Option Err) :
    (Close w fs closeErr).2.1.file = none ∧
    (Close w fs closeErr).2.1.index = w.index ∧
    (Close w fs closeErr).2.1.size = w.size ∧
    (Close w fs closeErr).2.1.maxHalfSize = w.maxHalfSize ∧
    (Close w fs closeErr).2.2 = fs := by
  unfold Close
  cases h : w.file <;> simp [h]

theorem Write_closed (w : writer) (fs : FS) (buf : List Byte) (env : WriteEnv)
    (h : w.file = none) : Write w fs buf env = ((-1, some errClosed), w, fs) := by
  simp [Write, h]

theorem Close_closed (w : writer) (fs : FS) (closeErr : Option Err) (h : w.file = none) :
    Close w fs closeErr = (some errClosed, w, fs) := by
  simp [Close, h]

theorem call_closed (s : writer × FS) (c : Call) (h : s.1.file = none) :
    call s c = (closedRet c, s) := by
  cases c with
  | write buf env => simp [call, closedRet, Write, h]
  | close closeErr => simp [call, closedRet, Close, h]

theorem calls_closed (cs : List Call) (s : writer × FS) (h : s.1.file = none) :
    calls s cs = (cs.map closedRet, s) := by
  induction cs with
  | nil => rfl
  | cons c rest ih => simp only [calls, call_closed s c h, ih, List.map_cons]

/-- C9: after a `Close` (whatever it returned, on whatever writer) every later
call, in any number and order, gets the closed error, `Write` with the count
`-1`, and leaves the writer (index, size, handle) and the file system (content
and modification times of both files) exactly as the `Close` left them, which
for the file system, the index and the size is as they were before it. -/
theorem closed_writer_rejects (w : writer) (fs : FS) (closeErr : Option Err) (cs : List Call) :
    calls (Close w fs closeErr).2 cs = (cs.map closedRet, (Close w fs closeErr).2) ∧
    (∀ buf env, Write (Close w fs closeErr).2.1 (Close w fs closeErr).2.2 buf env =
      ((-1, some errClosed), (Close w fs closeErr).2)) ∧
    (∀ e, Close (Close w fs closeErr).2.1 (Close w fs closeErr).2.2 e =
      (some errClosed, (Close w fs closeErr).2)) ∧
    (Close w fs closeErr).2.2 = fs ∧
    (Close w fs closeErr).2.1.index = w.index ∧
    (Close w fs closeErr).2.1.size = w.size := by
  obtain ⟨hf, hi, hs, _, hfs⟩ := Close_file w fs closeErr
  exact ⟨calls_closed cs _ hf, fun buf env => Write_closed _ _ buf env hf,
    fun e => Close_closed _ _ e hf, hfs, hi, hs⟩

/-! ## A rotation whose open fails -/

/-- C10: on an open writer at or over the threshold, when the `os.OpenFile` of
the rotation fails with `e`, `Write(buf)` returns `(-1, e)` and leaves the
writer (index, handle, size) and both files exactly as they were; a later
`Write` attempts the rotation again: it answers with the error of its own
failed open, and with a successful open it flips the index and empties the
other file before appending. -/
theorem Write_rotation_open_fails (w : writer) (fs : FS) (buf : List Byte) (env : WriteEnv)
    (f : Fin 2) (e : Err) (hopen : w.file = some f) (hge : w.maxHalfSize ≤ w.size)
    (herr : env.openErr = some e) :
    Write w fs buf env = ((-1, some e), w, fs) ∧
    (∀ buf2 env2 e2, env2.openErr = some e2 →
      Write (Write w fs buf env).2.1 (Write w fs buf env).2.2 buf2 env2 = ((-1, some e2), w, fs)) ∧
    (∀ buf2 env2, env2.openErr = none →
      (Write (Write w fs buf env).2.1 (Write w fs buf env).2.2 buf2 env2).2.1.index = 1 - w.index ∧
      afterRotate (Write w fs buf env).2.1 (Write w fs buf env).2.2 env2 =
        fs.set (1 - w.index) (some { data := [], modTime := env2.openTime })) := by
  have h1 : ∀ (b : List Byte) (v : WriteEnv) (x : Err), v.openErr = some x →
      Write w fs b v = ((-1, some x), w, fs) := by
    intro b v x hx
    simp only [Write, hopen, ge_iff_le, hge, if_true, toOther, openTrunc, hx]
  rw [h1 buf env e herr]
  refine ⟨rfl, fun buf2 env2 e2 h2 => h1 buf2 env2 e2 h2, fun buf2 env2 h2 => ?_⟩
  constructor
  · simp only [Write, hopen, ge_iff_le, hge, if_true, toOther, openTrunc, h2]
    cases hc : env2.closeErr with
    | some x => simp
    | none =>
      simp only [writeBuf]
      split <;> rfl
  · simp [afterRotate, hopen, hge, toOther, openTrunc, h2]

/-- C10 at the test: the third write finds 14 bytes in A; when the open of B
fails with error 24 the write returns `(-1, error 24)` and nothing changes. -/
theorem Write_rotation_open_fails_witness :
    ((writes testStart (testWrites 2)).1.file = some 0 ∧
      (writes testStart (testWrites 2)).1.maxHalfSize ≤ (writes testStart (testWrites 2)).1.size ∧
      ({ okEnv b1 5 with openErr := some (.sys 24) } : WriteEnv).openErr = some (.sys 24)) ∧
    Write (writes testStart (testWrites 2)).1 (writes testStart (testWrites 2)).2 b1
        { okEnv b1 5 with openErr := some (.sys 24) } =
      ((-1, some (.sys 24)), (writes testStart (testWrites 2)).1,
        (writes testStart (testWrites 2)).2) :=
  ⟨⟨by decide, by decide, rfl⟩,
    (Write_rotation_open_fails (writes testStart (testWrites 2)).1
      (writes testStart (testWrites 2)).2 b1 { okEnv b1 5 with openErr := some (.sys 24) } 0
      (.sys 24) (by decide) (by decide) rfl).1⟩

/-! ## The append, whatever the operating system answers -/

theorem fileWrite_ret (fs : FS) (f : Fin 2) (buf : List Byte) (n : Int) (err : Option Err)
    (now : Nat) : (fileWrite fs f buf n err now).1 = (n, err) := by
  unfold fileWrite
  split
  · simp only
    split <;> rfl
  · rfl

theorem fileWrite_other (fs : FS) (f j : Fin 2) (buf : List Byte) (n : Int) (err : Option Err)
    (now : Nat) (hj : j ≠ f) : (fileWrite fs f buf n err now).2.get j = fs.get j := by
  unfold fileWrite
  split
  · simp only
    split
    · rfl
    · exact FS.get_set_other _ _ _ _ hj
  · rfl

theorem fileWrite_content (fs : FS) (f : Fin 2) (buf : List Byte) (n : Int) (err : Option Err)
    (now : Nat) (file : File) (h : fs.get f = some file) :
    (∃ g, (fileWrite fs f buf n err now).2.get f = some g) ∧
    (fileWrite fs f buf n err now).2.content f = file.data ++ buf.take n.toNat := by
  unfold fileWrite
  simp only [h]
  by_cases hl : List.take n.toNat buf = []
  · simp [hl, h, FS.content]
  · simp [hl, FS.content, FS.get_set_same]

theorem fileWrite_prefix (fs : FS) (f : Fin 2) (buf : List Byte) (n : Int) (err : Option Err)
    (now : Nat) :
    ∃ d, d <+: buf ∧ (fileWrite fs f buf n err now).2.content f = fs.content f ++ d := by
  cases h : fs.get f with
  | none =>
    refine ⟨[], List.nil_prefix, ?_⟩
    simp [fileWrite, h]
  | some file =>
    refine ⟨buf.take n.toNat, List.take_prefix _ _, ?_⟩
    rw [(fileWrite_content fs f buf n err now file h).2]
    simp [FS.content, h]

/-- Lines 47 to 51 on an open handle: the result is the one of the append, the
size grows by a positive count only, and the file system is the one the append
leaves. -/
theorem writeBuf_eq (w : writer) (fs : FS) (buf : List Byte) (env : WriteEnv) (f : Fin 2)
    (hopen : w.file = some f) :
    (writeBuf w fs buf env).1 = (env.n, env.writeErr) ∧
    (writeBuf w fs buf env).2.1 =
      { w with size := w.size + (if 0 < env.n then env.n else 0) } ∧
    (writeBuf w fs buf env).2.2 = (fileWrite fs f buf env.n env.writeErr env.writeTime).2 := by
  have hr := fileWrite_ret fs f buf env.n env.writeErr env.writeTime
  unfold writeBuf
  simp only [hopen]
  by_cases hn : env.n > 0
  · have hn2 : 0 < env.n := hn
    simp [hr, hn2]
  · have hn2 : ¬ 0 < env.n := hn
    simp only [hr, hn, hn2, if_false, add_zero]
    refine ⟨trivial, ?_, trivial⟩
    cases w
    simp_all

/-! ## The combined size -/

/-- One `Write` of at most `L` bytes, whatever the operating system answers,
on an open writer whose size field is not below the on-disk size of its active
file: the same holds afterwards, the threshold is kept, and both files stay
within `maxHalfSize + L` bytes, also right after the rotation step. -/
theorem Write_bound (w : writer) (fs : FS) (buf : List Byte) (env : WriteEnv) (L : Nat)
    (hopen : w.file = some w.index) (hex : ∃ f, fs.get w.index = some f)
    (hsz : (fs.size w.index : Int) ≤ w.size) (hm : 0 ≤ w.maxHalfSize)
    (hb : ∀ i, (fs.size i : Int) ≤ w.maxHalfSize + L) (hlen : buf.length ≤ L) :
    (Write w fs buf env).2.1.maxHalfSize = w.maxHalfSize ∧
    (Write w fs buf env).2.1.file = some (Write w fs buf env).2.1.index ∧
    (∃ f, (Write w fs buf env).2.2.get (Write w fs buf env).2.1.index = some f) ∧
    (((Write w fs buf env).2.2.size (Write w fs buf env).2.1.index : Nat) : Int) ≤
      (Write w fs buf env).2.1.size ∧
    (∀ i, ((afterRotate w fs env).size i : Int) ≤ w.maxHalfSize + L) ∧
    (∀ i, (((Write w fs buf env).2.2).size i : Int) ≤ w.maxHalfSize + L) := by
  obtain ⟨file, hact⟩ := hex
  have htake : ((buf.take env.n.toNat).length : Int) ≤ (if 0 < env.n then env.n else 0) ∧
      (buf.take env.n.toNat).length ≤ L := by
    rw [List.length_take]
    constructor
    · split_ifs with hp <;> omega
    · omega
  -- the append on a writer `v` open on an existing file `g`
  have hwb : ∀ (v : writer) (gs : FS) (g : File), v.file = some v.index →
      gs.get v.index = some g → (g.data.length : Int) ≤ v.size →
      (writeBuf v gs buf env).2.1.maxHalfSize = v.maxHalfSize ∧
      (writeBuf v gs buf env).2.1.file = some (writeBuf v gs buf env).2.1.index ∧
      (writeBuf v gs buf env).2.1.index = v.index ∧
      (∃ f, (writeBuf v gs buf env).2.2.get v.index = some f) ∧
      (((writeBuf v gs buf env).2.2.size v.index : Nat) : Int) ≤
        (writeBuf v gs buf env).2.1.size ∧
      (writeBuf v gs buf env).2.2.size v.index = g.data.length + (buf.take env.n.toNat).length ∧
      (writeBuf v gs buf env).2.2.get (1 - v.index) = gs.get (1 - v.index) := by
    intro v gs g hv hg hs
    obtain ⟨_, h2, h3⟩ := writeBuf_eq v gs buf env _ hv
    obtain ⟨hex2, hcont⟩ := fileWrite_content gs v.index buf env.n env.writeErr env.writeTime g hg
    rw [h2, h3]
    have hsize : (fileWrite gs v.index buf env.n env.writeErr env.writeTime).2.size v.index =
        g.data.length + (buf.take env.n.toNat).length := by
      simp only [FS.size, hcont, List.length_append]
    refine ⟨rfl, hv, rfl, hex2, ?_, hsize,
      fileWrite_other _ _ _ _ _ _ _ (one_sub_ne v.index)⟩
    rw [hsize]
    push_cast
    have := htake.1
    omega
  have hfile : fs.size w.index = file.data.length := by simp [FS.size, FS.content, hact]
  by_cases hge : w.maxHalfSize ≤ w.size
  · cases ho : env.openErr with
    | some e =>
      have hW : Write w fs buf env = ((-1, some e), w, fs) := by
        simp only [Write, hopen, ge_iff_le, hge, if_true, toOther, openTrunc, ho]
      have har : afterRotate w fs env = fs := by
        simp [afterRotate, hopen, hge, toOther, openTrunc, ho]
      rw [hW, har]
      exact ⟨rfl, hopen, ⟨file, hact⟩, hsz, hb, hb⟩
    | none =>
      have har : afterRotate w fs env =
          fs.set (1 - w.index) (some { data := [], modTime := env.openTime }) := by
        simp [afterRotate, hopen, hge, toOther, openTrunc, ho]
      have hnew0 : (fs.set (1 - w.index) (some { data := [], modTime := env.openTime })).size
          (1 - w.index) = 0 := by
        simp [FS.size, FS.content, FS.get_set_same]
      have hkeep : (fs.set (1 - w.index) (some { data := [], modTime := env.openTime })).get
          w.index = fs.get w.index := FS.get_set_other _ _ _ _ (one_sub_ne w.index).symm
      have hb1 : ∀ i, ((fs.set (1 - w.index)
          (some { data := [], modTime := env.openTime })).size i : Int) ≤ w.maxHalfSize + L := by
        intro i
        rcases eq_or_eq_one_sub w.index i with hi | hi
        · subst hi
          rw [FS.size_congr _ _ _ hkeep]
          exact hb _
        · subst hi
          rw [hnew0]
          push_cast
          omega
      cases hc : env.closeErr with
      | some e =>
        have hW : Write w fs buf env = ((-1, some e),
            { w with file := some (1 - w.index), size := 0, index := 1 - w.index },
            fs.set (1 - w.index) (some { data := [], modTime := env.openTime })) := by
          simp only [Write, hopen, ge_iff_le, hge, if_true, toOther, openTrunc, ho, hc]
        rw [hW, har]
        refine ⟨rfl, rfl, ⟨_, FS.get_set_same _ _ _⟩, ?_, hb1, hb1⟩
        simp only
        rw [hnew0]
        simp
      | none =>
        rw [Write_rotate w fs buf env _ hopen hge ho hc, har]
        obtain ⟨h1, h2, h3, h4, h5, h6, h7⟩ := hwb
          { w with file := some (1 - w.index), size := 0, index := 1 - w.index }
          (fs.set (1 - w.index) (some { data := [], modTime := env.openTime }))
          { data := [], modTime := env.openTime } rfl (FS.get_set_same _ _ _) (by simp)
        simp only [one_sub_one_sub] at h7
        refine ⟨h1, h2, by rw [h3]; exact h4, by rw [h3]; exact h5, hb1, fun i => ?_⟩
        rcases eq_or_eq_one_sub w.index i with hi | hi
        · subst hi
          rw [FS.size_congr _ _ _ (h7.trans hkeep)]
          exact hb _
        · subst hi
          rw [h6]
          have := htake.2
          simp only [List.length_nil, zero_add]
          omega
  · have hlt : w.size < w.maxHalfSize := by omega
    have har : afterRotate w fs env = fs := by
      have hnot : ¬ (w.size ≥ w.maxHalfSize) := by omega
      simp [afterRotate, hopen, hnot]
    rw [Write_below w fs buf env _ hopen hlt, har]
    obtain ⟨h1, h2, h3, h4, h5, h6, h7⟩ := hwb w fs file hopen hact (by rw [← hfile]; exact hsz)
    refine ⟨h1, h2, by rw [h3]; exact h4, by rw [h3]; exact h5, hb, fun i => ?_⟩
    rcases eq_or_eq_one_sub w.index i with hi | hi
    · subst hi
      rw [h6]
      have := htake.2
      push_cast
      omega
    · subst hi
      rw [FS.size_congr _ _ _ h7]
      exact hb _

/-- The bound of `Write_bound` at every file-system state a sequence of writes
of at most `L` bytes each passes through. -/
theorem fsTrace_bound_any (L : Nat) (ws : List (List Byte × WriteEnv)) :
    ∀ (w : writer) (fs : FS), w.file = some w.index → (∃ f, fs.get w.index = some f) →
      (fs.size w.index : Int) ≤ w.size → 0 ≤ w.maxHalfSize →
      (∀ i, (fs.size i : Int) ≤ w.maxHalfSize + L) →
      (∀ p ∈ ws, p.1.length ≤ L) →
      ∀ fs1 ∈ fsTrace (w, fs) ws, ∀ i, (fs1.size i : Int) ≤ w.maxHalfSize + L := by
  induction ws with
  | nil =>
    intro w fs _ _ _ _ hb _ fs1 hmem i
    simp only [fsTrace, List.mem_singleton] at hmem
    subst hmem
    exact hb i
  | cons p rest ih =>
    obtain ⟨buf, env⟩ := p
    intro w fs hopen hex hsz hm hb hws fs1 hmem i
    obtain ⟨h1, h2, h3, h4, h5, h6⟩ := Write_bound w fs buf env L hopen hex hsz hm hb
      (hws (buf, env) (List.mem_cons_self _ _))
    simp only [fsTrace, List.mem_cons] at hmem
    rcases hmem with h | h | h
    · subst h
      exact hb i
    · subst h
      exact h5 i
    · have := ih (Write w fs buf env).2.1 (Write w fs buf env).2.2 h2 h3 h4 (by rw [h1]; exact hm)
        (by rw [h1]; exact h6) (fun q hq => hws q (List.mem_cons_of_mem _ hq)) fs1 h i
      rw [h1] at this
      exact this

/-- C2, amended: on a log started by `New` where neither file exists, along
every sequence of `Write` calls of at most `L` bytes each, whatever they
return, at every file-system state passed through the two files together hold
at most `maxSize + 2 * L` bytes, each of them at most `maxSize / 2 + L`. -/
theorem combined_size_le (maxSize : Int) (nenv : NewEnv) (w0 : writer) (fs0 : FS)
    (hnew : New emptyFS maxSize nenv = (.ok w0, fs0)) (L : Nat)
    (ws : List (List Byte × WriteEnv)) (hws : ∀ p ∈ ws, p.1.length ≤ L) :
    ∀ fs ∈ fsTrace (w0, fs0) ws,
      ((fs.size 0 + fs.size 1 : Nat) : Int) ≤ maxSize + 2 * L ∧
      ∀ i, (fs.size i : Int) ≤ maxSize.tdiv 2 + L := by
  obtain ⟨hpos, hw, hfs⟩ := New_fresh maxSize nenv w0 fs0 hnew
  subst hw hfs
  have hm := tdiv_two_nonneg maxSize hpos
  have hzero : ∀ j : Fin 2,
      (FS.mk (some { data := [], modTime := nenv.createTime }) none).size j = 0 := by
    intro j
    simp only [FS.size, FS.content, FS.get]
    split_ifs <;> simp
  have hall := fsTrace_bound_any L ws
    { maxHalfSize := maxSize.tdiv 2, index := 0, file := some 0, size := 0 }
    { A := some { data := [], modTime := nenv.createTime }, B := none } rfl ⟨_, rfl⟩
    (by simp only [hzero]; simp) hm
    (fun i => by rw [hzero]; simp only [Nat.cast_zero]; omega) hws
  intro fs hmem
  have h0 := hall fs hmem 0
  have h1 := hall fs hmem 1
  refine ⟨?_, hall fs hmem⟩
  have h2 : 2 * maxSize.tdiv 2 ≤ maxSize := by
    rw [Int.tdiv_eq_ediv (le_of_lt hpos) (by decide)]
    omega
  simp only at h0 h1
  push_cast
  omega

/-- C2, amended, at the test: with `maxSize` 20 and writes of 7 bytes, of which
one lands 3 bytes and one fails to close the old handle, the two files never
hold more than `20 + 2 * 7` bytes together. -/
theorem combined_size_le_witness :
    (New emptyFS 20 (okNew 0) = (.ok testStart.1, testStart.2) ∧
      ∀ p ∈ faultyWrites ++ testWrites 4, p.1.length ≤ 7) ∧
    (∀ fs ∈ fsTrace (testStart.1, testStart.2) (faultyWrites ++ testWrites 4),
      ((fs.size 0 + fs.size 1 : Nat) : Int) ≤ 20 + 2 * (7 : Nat) ∧
      ∀ i, (fs.size i : Int) ≤ (20 : Int).tdiv 2 + (7 : Nat)) :=
  ⟨⟨rfl, by decide⟩,
    combined_size_le 20 (okNew 0) testStart.1 testStart.2 rfl 7 (faultyWrites ++ testWrites 4)
      (by decide)⟩

/-! ## Reopening the log -/

theorem FS.before_get (fs : FS) (t : Nat) (h : fs.before t) (i : Fin 2) (f : File)
    (hf : fs.get i = some f) : f.modTime < t := by
  have h2 : ∀ j : Fin 2, j = 0 ∨ j = 1 := by decide
  obtain ⟨hA, hB⟩ := h
  rcases h2 i with rfl | rfl
  · have : fs.A = some f := by simpa [FS.get] using hf
    simpa [this, modifiedBefore] using hA
  · have : fs.B = some f := by simpa [FS.get] using hf
    simpa [this, modifiedBefore] using hB

/-- What one `Write` call, whatever the operating system answers, can do to an
open writer and the two files: it keeps the threshold and stays open on its
active file; either the index is kept and the active file is untouched or
appended to, or the index is flipped and the new active file was emptied and
possibly appended to.  The non-active file of the resulting state is never
changed. -/
theorem Write_cases (w : writer) (fs : FS) (buf : List Byte) (env : WriteEnv) (file : File)
    (hopen : w.file = some w.index) (hact : fs.get w.index = some file) :
    (Write w fs buf env).2.1.maxHalfSize = w.maxHalfSize ∧
    (Write w fs buf env).2.1.file = some (Write w fs buf env).2.1.index ∧
    (((Write w fs buf env).2.1.index = w.index ∧
        ((Write w fs buf env).2.2 = fs ∨
          ∃ d, (Write w fs buf env).2.2 =
            fs.set w.index (some { data := d, modTime := env.writeTime }))) ∨
      ((Write w fs buf env).2.1.index = 1 - w.index ∧
        ((Write w fs buf env).2.2 =
            fs.set (1 - w.index) (some { data := [], modTime := env.openTime }) ∨
          ∃ d, (Write w fs buf env).2.2 =
            (fs.set (1 - w.index) (some { data := [], modTime := env.openTime })).set
              (1 - w.index) (some { data := d, modTime := env.writeTime })))) := by
  have hwb : ∀ (v : writer) (gs : FS) (g : File), v.file = some v.index →
      gs.get v.index = some g →
      (writeBuf v gs buf env).2.1.maxHalfSize = v.maxHalfSize ∧
      (writeBuf v gs buf env).2.1.file = some v.index ∧
      (writeBuf v gs buf env).2.1.index = v.index ∧
      ((writeBuf v gs buf env).2.2 = gs ∨
        ∃ d, (writeBuf v gs buf env).2.2 =
          gs.set v.index (some { data := d, modTime := env.writeTime })) := by
    intro v gs g hv hg
    simp only [writeBuf, hv, fileWrite, hg]
    by_cases hl : List.take env.n.toNat buf = [] <;> by_cases hn : env.n > 0 <;>
      simp [hl, hn, hv] <;> exact Or.inr ⟨_, rfl⟩
  by_cases hge : w.maxHalfSize ≤ w.size
  · cases ho : env.openErr with
    | some e =>
      simp [Write, hopen, hge, toOther, openTrunc, ho]
    | none =>
      cases hc : env.closeErr with
      | some e =>
        simp [Write, hopen, hge, toOther, openTrunc, ho, hc]
      | none =>
        rw [Write_rotate w fs buf env _ hopen hge ho hc]
        obtain ⟨h1, h2, h3, h4⟩ := hwb
          { w with file := some (1 - w.index), size := 0, index := 1 - w.index }
          (fs.set (1 - w.index) (some { data := [], modTime := env.openTime }))
          { data := [], modTime := env.openTime } rfl (FS.get_set_same _ _ _)
        refine ⟨h1, by rw [h2, h3], Or.inr ⟨h3, h4⟩⟩
  · have hlt : w.size < w.maxHalfSize := by omega
    rw [Write_below w fs buf env _ hopen hlt]
    obtain ⟨h1, h2, h3, h4⟩ := hwb w fs file hopen hact
    exact ⟨h1, by rw [h2, h3], Or.inl ⟨h3, h4⟩⟩

theorem fileWrite_fs (fs : FS) (f : Fin 2) (buf : List Byte) (n : Int) (err : Option Err)
    (now : Nat) (file : File) (h : fs.get f = some file) :
    (fileWrite fs f buf n err now).2 =
      if buf.take n.toNat = [] then fs
      else fs.set f (some { data := file.data ++ buf.take n.toNat, modTime := now }) := by
  unfold fileWrite
  simp only [h]
  split <;> rfl

/-- A `Write` call whose stamps, where it puts one, are later than every
modification time on disk keeps the active file the one `New` would pick. -/
theorem Resumes_Write (w : writer) (fs : FS) (buf : List Byte) (env : WriteEnv)
    (hr : Resumes w fs) (hl : LaterStep w fs buf env) :
    Resumes (Write w fs buf env).2.1 (Write w fs buf env).2.2 := by
  obtain ⟨hopen, file, hact, hother⟩ := hr
  obtain ⟨htr, hap⟩ := hl
  have hne : w.file ≠ none := by rw [hopen]; simp
  by_cases hge : w.maxHalfSize ≤ w.size
  · cases ho : env.openErr with
    | some e =>
      have : Write w fs buf env = ((-1, some e), w, fs) := by
        simp only [Write, hopen, ge_iff_le, hge, if_true, toOther, openTrunc, ho]
      rw [this]
      exact ⟨hopen, file, hact, hother⟩
    | none =>
      have hb := htr ⟨hne, hge, ho⟩
      have har : afterRotate w fs env =
          fs.set (1 - w.index) (some { data := [], modTime := env.openTime }) := by
        simp [afterRotate, hopen, hge, toOther, openTrunc, ho]
      have hold : file.modTime < env.openTime := FS.before_get fs _ hb _ file hact
      have hkeep : (fs.set (1 - w.index) (some { data := [], modTime := env.openTime })).get
          w.index = some file := by
        rw [FS.get_set_other _ _ _ _ (one_sub_ne w.index).symm]
        exact hact
      have hflip : Resumes { w with file := some (1 - w.index), size := 0, index := 1 - w.index }
          (fs.set (1 - w.index) (some { data := [], modTime := env.openTime })) := by
        refine ⟨rfl, _, FS.get_set_same _ _ _, fun g hg => Or.inl ?_⟩
        simp only [one_sub_one_sub] at hg
        rw [hkeep] at hg
        cases hg
        exact hold
      cases hc : env.closeErr with
      | some e =>
        have : Write w fs buf env = ((-1, some e),
            { w with file := some (1 - w.index), size := 0, index := 1 - w.index },
            fs.set (1 - w.index) (some { data := [], modTime := env.openTime })) := by
          simp only [Write, hopen, ge_iff_le, hge, if_true, toOther, openTrunc, ho, hc]
        rw [this]
        exact hflip
      | none =>
        rw [Write_rotate w fs buf env _ hopen hge ho hc]
        obtain ⟨_, h2, h3⟩ := writeBuf_eq
          { w with file := some (1 - w.index), size := 0, index := 1 - w.index }
          (fs.set (1 - w.index) (some { data := [], modTime := env.openTime })) buf env
          (1 - w.index) rfl
        rw [h2, h3, fileWrite_fs _ _ _ _ _ _ { data := [], modTime := env.openTime }
          (FS.get_set_same _ _ _)]
        by_cases hl0 : buf.take env.n.toNat = []
        · simp only [hl0, if_true]
          exact hflip
        · have hbw := hap ⟨hne, fun _ => ⟨ho, hc⟩, hl0⟩
          rw [har] at hbw
          simp only [hl0, if_false]
          refine ⟨rfl, _, FS.get_set_same _ _ _, fun g hg => Or.inl ?_⟩
          simp only [one_sub_one_sub] at hg
          rw [FS.get_set_other _ _ _ _ (one_sub_ne w.index).symm] at hg
          exact FS.before_get _ _ hbw _ g hg
  · have hlt : w.size < w.maxHalfSize := by omega
    have har : afterRotate w fs env = fs := by
      have hnot : ¬ (w.size ≥ w.maxHalfSize) := by omega
      simp [afterRotate, hopen, hnot]
    rw [Write_below w fs buf env _ hopen hlt]
    obtain ⟨_, h2, h3⟩ := writeBuf_eq w fs buf env _ hopen
    rw [h2, h3, fileWrite_fs _ _ _ _ _ _ file hact]
    by_cases hl0 : buf.take env.n.toNat = []
    · simp only [hl0, if_true]
      exact ⟨hopen, file, hact, hother⟩
    · have hbw := hap ⟨hne, fun h => absurd h hge, hl0⟩
      rw [har] at hbw
      simp only [hl0, if_false]
      refine ⟨hopen, _, FS.get_set_same _ _ _, fun g hg => Or.inl ?_⟩
      simp only at hg
      rw [FS.get_set_other _ _ _ _ (one_sub_ne w.index)] at hg
      exact FS.before_get _ _ hbw _ g hg

theorem Resumes_writes (ws : List (List Byte × WriteEnv)) :
    ∀ (w : writer) (fs : FS), Resumes w fs → LaterRun (w, fs) ws →
      Resumes (writes (w, fs) ws).1 (writes (w, fs) ws).2 ∧
      (writes (w, fs) ws).1.maxHalfSize = w.maxHalfSize := by
  induction ws with
  | nil =>
    intro w fs hr _
    exact ⟨hr, rfl⟩
  | cons p rest ih =>
    obtain ⟨buf, env⟩ := p
    intro w fs hr hl
    obtain ⟨hstep, hrest⟩ := hl
    obtain ⟨file, hact, _⟩ := hr.2
    have hmax := (Write_cases w fs buf env file hr.1 hact).1
    obtain ⟨h1, h2⟩ := ih _ _ (Resumes_Write w fs buf env hr hstep) hrest
    exact ⟨h1, by rw [← hmax]; exact h2⟩

/-- A writer returned by `New` is open on the file `New` picks, with the
threshold `maxSize / 2`. -/
theorem New_Resumes (fs0 : FS) (maxSize : Int) (nenv : NewEnv) (w0 : writer) (fs1 : FS)
    (hnew : New fs0 maxSize nenv = (.ok w0, fs1)) :
    0 < maxSize ∧ w0.maxHalfSize = maxSize.tdiv 2 ∧ Resumes w0 fs1 := by
  unfold New at hnew
  by_cases hm : maxSize ≤ 0
  · simp [hm] at hnew
  · refine ⟨by omega, ?_⟩
    obtain ⟨A, B⟩ := fs0
    rcases A with _ | a <;> rcases B with _ | b <;>
      rcases h0 : nenv.open0 with _ | c0 <;> rcases h1 : nenv.open1 with _ | c1 <;>
      rcases hs0 : nenv.stat0 with _ | e0 <;> rcases hs1 : nenv.stat1 with _ | e1 <;>
      rcases hc : nenv.create with _ | e <;>
      simp [hm, openAppend, openTrunc, stat, FS.get, FS.set, IsNotExist, h0, h1, hs0, hs1, hc]
        at hnew
    all_goals first
      | (obtain ⟨rfl, rfl⟩ := hnew
         refine ⟨rfl, rfl, _, rfl, fun g hg => ?_⟩
         simp [FS.get] at hg)
      | (split at hnew <;> simp only [Prod.mk.injEq, Except.ok.injEq] at hnew <;>
           obtain ⟨rfl, rfl⟩ := hnew <;>
           refine ⟨rfl, rfl, _, rfl, fun g hg => ?_⟩ <;>
           simp [FS.get] at hg <;> subst hg <;> simp <;> omega)

/-- With its opens and stats succeeding, `New` resumes the file a writer
satisfying `Resumes` is on, with that file as it is on disk. -/
theorem New_of_Resumes (w : writer) (fs : FS) (maxSize : Int) (env : NewEnv) (hm : 0 < maxSize)
    (hr : Resumes w fs) (ho0 : env.open0 = none) (ho1 : env.open1 = none)
    (hs0 : env.stat0 = none) (hs1 : env.stat1 = none) :
    New fs maxSize env =
      (.ok { maxHalfSize := maxSize.tdiv 2, index := w.index, file := some w.index,
             size := (fs.size w.index : Nat) }, fs) := by
  have hnot : ¬ maxSize ≤ 0 := by omega
  obtain ⟨_, f, hact, hother⟩ := hr
  have h2 : ∀ j : Fin 2, j = 0 ∨ j = 1 := by decide
  obtain ⟨A, B⟩ := fs
  rcases h2 w.index with hi | hi
  · rw [hi] at hact hother ⊢
    have hA : A = some f := by simpa [FS.get] using hact
    subst hA
    rcases B with _ | b
    · simp [New, hnot, openAppend, stat, FS.get, FS.size, FS.content, IsNotExist, ho0, ho1, hs0]
    · have := hother b (by simp [FS.get])
      have hlt : b.modTime < f.modTime := by
        rcases this with h | ⟨h, _⟩
        · exact h
        · exact absurd h (by decide)
      simp [New, hnot, openAppend, stat, FS.get, FS.size, FS.content, ho0, ho1, hs0, hs1, hlt]
  · rw [hi] at hact hother ⊢
    have hB : B = some f := by simpa [FS.get] using hact
    subst hB
    rcases A with _ | a
    · simp [New, hnot, openAppend, stat, FS.get, FS.size, FS.content, IsNotExist, ho0, ho1, hs1]
    · have := hother a (by simp [FS.get])
      have hle : ¬ f.modTime < a.modTime := by
        rcases this with h | ⟨_, h⟩ <;> omega
      simp [New, hnot, openAppend, stat, FS.get, FS.size, FS.content, ho0, ho1, hs0, hs1, hle]

/-- C6 as stated fails: on the fresh log of the test, after `New`, the six
writes and `Close`, a `New` whose open of `path.A` fails (here with error 24,
too many open files) returns that error and no writer; so does one whose
`Stat` of `path.B` fails (here error 5). -/
theorem reopen_open_fails :
    New emptyFS 20 (okNew 0) = (.ok testStart.1, testStart.2) ∧
    LaterRun testStart (testWrites 6) ∧
    New (Close (writes testStart (testWrites 6)).1 (writes testStart (testWrites 6)).2 none).2.2
        20 { okNew 0 with open0 := some 24 }
      = (.error (.sys 24), (writes testStart (testWrites 6)).2) ∧
    New (Close (writes testStart (testWrites 6)).1 (writes testStart (testWrites 6)).2 none).2.2
        20 { okNew 0 with stat1 := some (.sys 5) }
      = (.error (.sys 5), (writes testStart (testWrites 6)).2) ∧
    ¬ ∃ w fs1,
      New (Close (writes testStart (testWrites 6)).1 (writes testStart (testWrites 6)).2 none).2.2
        20 { okNew 0 with open0 := some 24 } = (.ok w, fs1) := by
  have h1 : New
      (Close (writes testStart (testWrites 6)).1 (writes testStart (testWrites 6)).2 none).2.2
        20 { okNew 0 with open0 := some 24 }
      = (.error (.sys 24), (writes testStart (testWrites 6)).2) := rfl
  refine ⟨rfl, by decide, h1, rfl, ?_⟩
  rintro ⟨w, fs1, h⟩
  rw [h1] at h
  cases h

/-- C6, amended: from any state reached from a successful `New` by `Write`
calls (whatever they return) in which every creation, truncation and append
that happens stamps its file with a time later than every modification time
then on disk, `Close` followed by a `New` with the same `maxSize` whose opens
and stats succeed returns a writer with the index the writer had, open on that
file, with size the on-disk size of that file, and changes nothing on disk. -/
theorem reopen_resumes_active (fs0 : FS) (maxSize : Int) (nenv : NewEnv) (w0 : writer) (fs1 : FS)
    (hnew : New fs0 maxSize nenv = (.ok w0, fs1))
    (ws : List (List Byte × WriteEnv)) (hlater : LaterRun (w0, fs1) ws)
    (closeErr : Option Err) (nenv2 : NewEnv)
    (ho0 : nenv2.open0 = none) (ho1 : nenv2.open1 = none)
    (hs0 : nenv2.stat0 = none) (hs1 : nenv2.stat1 = none) :
    New (Close (writes (w0, fs1) ws).1 (writes (w0, fs1) ws).2 closeErr).2.2 maxSize nenv2 =
      (.ok { maxHalfSize := (writes (w0, fs1) ws).1.maxHalfSize,
             index := (writes (w0, fs1) ws).1.index,
             file := some (writes (w0, fs1) ws).1.index,
             size := ((writes (w0, fs1) ws).2.size (writes (w0, fs1) ws).1.index : Nat) },
        (writes (w0, fs1) ws).2) := by
  obtain ⟨hm, hmax, hr0⟩ := New_Resumes fs0 maxSize nenv w0 fs1 hnew
  obtain ⟨hr, hmax2⟩ := Resumes_writes ws w0 fs1 hr0 hlater
  rw [(Close_file _ _ closeErr).2.2.2.2, hmax2, hmax]
  exact New_of_Resumes _ _ maxSize nenv2 hm hr ho0 ho1 hs0 hs1

/-- C6 at the test: after the six writes (the last two into A) and `Close`,
`New` returns a writer with index 0 and size 14, and its next write rotates to
index 1.  Also on the fresh log, whose A is stamped 0, after one append
stamped 1 (the stamp 0 for a rotation is not used and not constrained): `New`
returns a writer on A with size 7. -/
theorem reopen_resumes_active_witness :
    (New emptyFS 20 (okNew 0) = (.ok testStart.1, testStart.2) ∧
      LaterRun (testStart.1, testStart.2) (testWrites 6) ∧
      (okNew 20).open0 = none ∧ (okNew 20).open1 = none ∧
      (okNew 20).stat0 = none ∧ (okNew 20).stat1 = none) ∧
    New (Close (writes (testStart.1, testStart.2) (testWrites 6)).1
          (writes (testStart.1, testStart.2) (testWrites 6)).2 none).2.2 20 (okNew 20) =
      (.ok { maxHalfSize := (writes (testStart.1, testStart.2) (testWrites 6)).1.maxHalfSize,
             index := (writes (testStart.1, testStart.2) (testWrites 6)).1.index,
             file := some (writes (testStart.1, testStart.2) (testWrites 6)).1.index,
             size := ((writes (testStart.1, testStart.2) (testWrites 6)).2.size
               (writes (testStart.1, testStart.2) (testWrites 6)).1.index : Nat) },
        (writes (testStart.1, testStart.2) (testWrites 6)).2) ∧
    (writes (testStart.1, testStart.2) (testWrites 6)).1.index = 0 ∧
    (writes (testStart.1, testStart.2) (testWrites 6)).2.size 0 = 14 ∧
    (Write { maxHalfSize := 10, index := 0, file := some 0, size := 14 }
        (writes (testStart.1, testStart.2) (testWrites 6)).2 b1 (okEnv b1 21)).2.1.index = 1 ∧
    (okEnv b1 0).openTime = 0 ∧ (okEnv b1 0).writeTime = 1 ∧
    LaterRun (testStart.1, testStart.2) [(b1, okEnv b1 0)] ∧
    New (Close (writes (testStart.1, testStart.2) [(b1, okEnv b1 0)]).1
          (writes (testStart.1, testStart.2) [(b1, okEnv b1 0)]).2 none).2.2 20 (okNew 20) =
      (.ok { maxHalfSize := (writes (testStart.1, testStart.2) [(b1, okEnv b1 0)]).1.maxHalfSize,
             index := (writes (testStart.1, testStart.2) [(b1, okEnv b1 0)]).1.index,
             file := some (writes (testStart.1, testStart.2) [(b1, okEnv b1 0)]).1.index,
             size := ((writes (testStart.1, testStart.2) [(b1, okEnv b1 0)]).2.size
               (writes (testStart.1, testStart.2) [(b1, okEnv b1 0)]).1.index : Nat) },
        (writes (testStart.1, testStart.2) [(b1, okEnv b1 0)]).2) ∧
    (writes (testStart.1, testStart.2) [(b1, okEnv b1 0)]).1.index = 0 ∧
    (writes (testStart.1, testStart.2) [(b1, okEnv b1 0)]).2.size 0 = 7 :=
  ⟨⟨rfl, by decide, rfl, rfl, rfl, rfl⟩,
    reopen_resumes_active emptyFS 20 (okNew 0) testStart.1 testStart.2 rfl (testWrites 6)
      (by decide) none (okNew 20) rfl rfl rfl rfl,
    by decide, by decide, by decide, rfl, rfl, by decide,
    reopen_resumes_active emptyFS 20 (okNew 0) testStart.1 testStart.2 rfl [(b1, okEnv b1 0)]
      (by decide) none (okNew 20) rfl rfl rfl rfl,
    by decide, by decide⟩

/-! ## What the append returns -/

/-- C11 as stated fails: the third write of the test finds size 14, rotates
without error and its append reports 7 bytes and no error; `Write` returns
`(7, nil)` but the size goes from 14 to 7, it does not grow by 7.  With an
append that reports `(0, error 28)` after the same rotation the size goes from
14 to 0, it is not unchanged. -/
theorem Write_size_after_rotation_not_added :
    (writes testStart (testWrites 2)).1.size = 14 ∧
    (Write (writes testStart (testWrites 2)).1 (writes testStart (testWrites 2)).2 b1
      (okEnv b1 5)).1 = (7, none) ∧
    (Write (writes testStart (testWrites 2)).1 (writes testStart (testWrites 2)).2 b1
      (okEnv b1 5)).2.1.size = 7 ∧
    ¬ ((Write (writes testStart (testWrites 2)).1 (writes testStart (testWrites 2)).2 b1
      (okEnv b1 5)).2.1.size = (writes testStart (testWrites 2)).1.size + 7) ∧
    (Write (writes testStart (testWrites 2)).1 (writes testStart (testWrites 2)).2 b1
      { okEnv b1 5 with n := 0, writeErr := some (.sys 28) }).1 = (0, some (.sys 28)) ∧
    ¬ ((Write (writes testStart (testWrites 2)).1 (writes testStart (testWrites 2)).2 b1
      { okEnv b1 5 with n := 0, writeErr := some (.sys 28) }).2.1.size
        = (writes testStart (testWrites 2)).1.size) := by
  refine ⟨by decide, by decide, by decide, by decide, by decide, by decide⟩

/-- C11, amended: on an open writer, when no rotation error occurs (no
rotation, or a rotation whose open and close succeed), `Write` returns exactly
the `(n, err)` the append reports, and the size after the call is the size the
append found (the size before the call without rotation, zero after a
rotation) plus `n` when `n > 0`, and that size otherwise. -/
theorem Write_returns_append_result (w : writer) (fs : FS) (buf : List Byte) (env : WriteEnv)
    (f : Fin 2) (hopen : w.file = some f)
    (hrot : w.size < w.maxHalfSize ∨ (env.openErr = none ∧ env.closeErr = none)) :
    (Write w fs buf env).1 = (env.n, env.writeErr) ∧
    (Write w fs buf env).2.1.size =
      (if w.maxHalfSize ≤ w.size then 0 else w.size) + (if 0 < env.n then env.n else 0) := by
  by_cases hge : w.maxHalfSize ≤ w.size
  · have hoc : env.openErr = none ∧ env.closeErr = none := by
      rcases hrot with h | h
      · omega
      · exact h
    rw [Write_rotate w fs buf env f hopen hge hoc.1 hoc.2]
    obtain ⟨h1, h2, _⟩ := writeBuf_eq
      { w with file := some (1 - w.index), size := 0, index := 1 - w.index }
      (fs.set (1 - w.index) (some { data := [], modTime := env.openTime })) buf env
      (1 - w.index) rfl
    rw [h1, h2]
    simp [hge]
  · have hlt : w.size < w.maxHalfSize := by omega
    rw [Write_below w fs buf env f hopen hlt]
    obtain ⟨h1, h2, _⟩ := writeBuf_eq w fs buf env f hopen
    rw [h1, h2]
    simp [hge]

/-- C11 at the test: the second write finds size 7 below the threshold 10; when
its append lands 3 bytes and reports `(3, error 28)`, `Write` returns that pair
and the size is 10. -/
theorem Write_returns_append_result_witness :
    ((writes testStart (testWrites 1)).1.file = some 0 ∧
      ((writes testStart (testWrites 1)).1.size < (writes testStart (testWrites 1)).1.maxHalfSize ∨
        (({ okEnv b1 3 with n := 3, writeErr := some (.sys 28) } : WriteEnv).openErr = none ∧
          ({ okEnv b1 3 with n := 3, writeErr := some (.sys 28) } : WriteEnv).closeErr
            = none))) ∧
    ((Write (writes testStart (testWrites 1)).1 (writes testStart (testWrites 1)).2 b1
        { okEnv b1 3 with n := 3, writeErr := some (.sys 28) }).1 =
        (({ okEnv b1 3 with n := 3, writeErr := some (.sys 28) } : WriteEnv).n,
          ({ okEnv b1 3 with n := 3, writeErr := some (.sys 28) } : WriteEnv).writeErr) ∧
      (Write (writes testStart (testWrites 1)).1 (writes testStart (testWrites 1)).2 b1
        { okEnv b1 3 with n := 3, writeErr := some (.sys 28) }).2.1.size =
        (if (writes testStart (testWrites 1)).1.maxHalfSize ≤ (writes testStart (testWrites 1)).1.size
          then 0 else (writes testStart (testWrites 1)).1.size) +
        (if 0 < ({ okEnv b1 3 with n := 3, writeErr := some (.sys 28) } : WriteEnv).n
          then ({ okEnv b1 3 with n := 3, writeErr := some (.sys 28) } : WriteEnv).n else 0)) ∧
    (Write (writes testStart (testWrites 1)).1 (writes testStart (testWrites 1)).2 b1
        { okEnv b1 3 with n := 3, writeErr := some (.sys 28) }).1 = (3, some (.sys 28)) ∧
    (Write (writes testStart (testWrites 1)).1 (writes testStart (testWrites 1)).2 b1
        { okEnv b1 3 with n := 3, writeErr := some (.sys 28) }).2.1.size = 10 ∧
    (Write (writes testStart (testWrites 1)).1 (writes testStart (testWrites 1)).2 b1
        { okEnv b1 3 with n := 3, writeErr := some (.sys 28) }).2.2.size 0 = 10 :=
  ⟨⟨by decide, Or.inl (by decide)⟩,
    Write_returns_append_result (writes testStart (testWrites 1)).1
      (writes testStart (testWrites 1)).2 b1
      { okEnv b1 3 with n := 3, writeErr := some (.sys 28) } 0 (by decide) (Or.inl (by decide)),
    by decide, by decide, by decide⟩

/-! ## A `maxSize` that is not positive -/

/-- C12: with `maxSize <= 0`, on any files and whatever the operating system
would answer, `New` returns the error of line 84 and no writer, and the file
system is as it was: the result does not depend on any file-system call. -/
theorem New_rejects_nonpositive (fs : FS) (maxSize : Int) (env : NewEnv) (h : maxSize ≤ 0) :
    New fs maxSize env = (.error .badMaxSize, fs) ∧
    (∀ w fs1, New fs maxSize env ≠ (.ok w, fs1)) ∧
    (∀ env2, New fs maxSize env2 = New fs maxSize env) := by
  have h1 : ∀ e : NewEnv, New fs maxSize e = (.error .badMaxSize, fs) := by
    intro e
    simp [New, h]
  refine ⟨h1 env, fun w fs1 hw => ?_, fun env2 => by rw [h1 env2, h1 env]⟩
  rw [h1 env] at hw
  cases hw

/-- C12 at `maxSize` 0 and at `maxSize` -5: an error, and the two files of the
test after its six writes are as they were. -/
theorem New_rejects_nonpositive_witness :
    ((0 : Int) ≤ 0 ∧ (-5 : Int) ≤ 0) ∧
    (New emptyFS 0 (okNew 0) = (.error .badMaxSize, emptyFS) ∧
      (∀ w fs1, New emptyFS 0 (okNew 0) ≠ (.ok w, fs1)) ∧
      (∀ env2, New emptyFS 0 env2 = New emptyFS 0 (okNew 0))) ∧
    New (writes testStart (testWrites 6)).2 (-5) (okNew 0) =
      (.error .badMaxSize, (writes testStart (testWrites 6)).2) :=
  ⟨⟨by decide, by decide⟩, New_rejects_nonpositive emptyFS 0 (okNew 0) (by decide),
    (New_rejects_nonpositive (writes testStart (testWrites 6)).2 (-5) (okNew 0) (by decide)).1⟩

/-! ## What a `Write` leaves alone -/

/-- C13: whatever the operating system answers, a `Write` on an open writer
that does not rotate (size below the threshold) leaves the non-active file as
it was and changes the active file only by appending a prefix of `buf` to it;
a `Write` that rotates (size at or over the threshold) leaves the previously
active file as it was, and the file rotated into is either untouched (the open
failed) or holds a prefix of `buf` and nothing else. -/
theorem Write_frame (w : writer) (fs : FS) (buf : List Byte) (env : WriteEnv)
    (hopen : w.file = some w.index) :
    (w.size < w.maxHalfSize →
      (Write w fs buf env).2.2.get (1 - w.index) = fs.get (1 - w.index) ∧
      ∃ d, d <+: buf ∧ (Write w fs buf env).2.2.content w.index = fs.content w.index ++ d) ∧
    (w.maxHalfSize ≤ w.size →
      (Write w fs buf env).2.2.get w.index = fs.get w.index ∧
      ((Write w fs buf env).2.2 = fs ∨
        ∃ d, d <+: buf ∧ (Write w fs buf env).2.2.content (1 - w.index) = d)) := by
  constructor
  · intro hlt
    rw [Write_below w fs buf env _ hopen hlt, (writeBuf_eq w fs buf env _ hopen).2.2]
    exact ⟨fileWrite_other _ _ _ _ _ _ _ (one_sub_ne w.index), fileWrite_prefix _ _ _ _ _ _⟩
  · intro hge
    cases ho : env.openErr with
    | some e =>
      have : Write w fs buf env = ((-1, some e), w, fs) := by
        simp only [Write, hopen, ge_iff_le, hge, if_true, toOther, openTrunc, ho]
      rw [this]
      exact ⟨rfl, Or.inl rfl⟩
    | none =>
      have hempty : (fs.set (1 - w.index) (some { data := [], modTime := env.openTime })).content
          (1 - w.index) = [] := by
        simp [FS.content, FS.get_set_same]
      cases hc : env.closeErr with
      | some e =>
        have : Write w fs buf env = ((-1, some e),
            { w with file := some (1 - w.index), size := 0, index := 1 - w.index },
            fs.set (1 - w.index) (some { data := [], modTime := env.openTime })) := by
          simp only [Write, hopen, ge_iff_le, hge, if_true, toOther, openTrunc, ho, hc]
        rw [this]
        exact ⟨FS.get_set_other _ _ _ _ (one_sub_ne w.index).symm,
          Or.inr ⟨[], List.nil_prefix, hempty⟩⟩
      | none =>
        rw [Write_rotate w fs buf env _ hopen hge ho hc,
          (writeBuf_eq _ _ buf env (1 - w.index) rfl).2.2]
        refine ⟨?_, Or.inr ?_⟩
        · rw [fileWrite_other _ _ _ _ _ _ _ (one_sub_ne w.index).symm]
          exact FS.get_set_other _ _ _ _ (one_sub_ne w.index).symm
        · obtain ⟨d, hd, hcont⟩ := fileWrite_prefix
            (fs.set (1 - w.index) (some { data := [], modTime := env.openTime })) (1 - w.index)
            buf env.n env.writeErr env.writeTime
          refine ⟨d, hd, ?_⟩
          rw [hcont, hempty, List.nil_append]

/-- C13 at the test: the third write rotates, leaves A with its 14 bytes and
puts 7 bytes into B; the second write does not rotate and leaves B absent. -/
theorem Write_frame_witness :
    ((writes testStart (testWrites 2)).1.file = some (writes testStart (testWrites 2)).1.index ∧
      (writes testStart (testWrites 2)).1.maxHalfSize ≤ (writes testStart (testWrites 2)).1.size) ∧
    ((Write (writes testStart (testWrites 2)).1 (writes testStart (testWrites 2)).2 b1
        (okEnv b1 5)).2.2.get (writes testStart (testWrites 2)).1.index =
        (writes testStart (testWrites 2)).2.get (writes testStart (testWrites 2)).1.index ∧
      ((Write (writes testStart (testWrites 2)).1 (writes testStart (testWrites 2)).2 b1
          (okEnv b1 5)).2.2 = (writes testStart (testWrites 2)).2 ∨
        ∃ d, d <+: b1 ∧
          (Write (writes testStart (testWrites 2)).1 (writes testStart (testWrites 2)).2 b1
            (okEnv b1 5)).2.2.content (1 - (writes testStart (testWrites 2)).1.index) = d)) ∧
    (writes testStart (testWrites 2)).2.size 0 = 14 ∧
    (writes testStart (testWrites 3)).2.size 0 = 14 ∧
    (writes testStart (testWrites 3)).2.A = (writes testStart (testWrites 2)).2.A ∧
    (writes testStart (testWrites 3)).2.size 1 = 7 ∧
    (writes testStart (testWrites 2)).2.B = (writes testStart (testWrites 1)).2.B :=
  ⟨⟨by decide, by decide⟩,
    (Write_frame (writes testStart (testWrites 2)).1 (writes testStart (testWrites 2)).2 b1
      (okEnv b1 5) (by decide)).2 (by decide),
    by decide, by decide, by decide, by decide, by decide⟩

/-! ## The size field and the size on disk -/

/-- A writer returned by `New` tracks its active file. -/
theorem New_Tracks (fs0 : FS) (maxSize : Int) (nenv : NewEnv) (w0 : writer) (fs1 : FS)
    (hnew : New fs0 maxSize nenv = (.ok w0, fs1)) : Tracks w0 fs1 := by
  unfold New at hnew
  by_cases hm : maxSize ≤ 0
  · simp [hm] at hnew
  · obtain ⟨A, B⟩ := fs0
    rcases A with _ | a <;> rcases B with _ | b <;>
      rcases h0 : nenv.open0 with _ | c0 <;> rcases h1 : nenv.open1 with _ | c1 <;>
      rcases hs0 : nenv.stat0 with _ | e0 <;> rcases hs1 : nenv.stat1 with _ | e1 <;>
      rcases hc : nenv.create with _ | e <;>
      simp [hm, openAppend, openTrunc, stat, FS.get, FS.set, IsNotExist, h0, h1, hs0, hs1, hc]
        at hnew
    all_goals first
      | (obtain ⟨rfl, rfl⟩ := hnew
         refine ⟨rfl, ⟨_, rfl⟩, ?_⟩
         simp [FS.size, FS.content, FS.get])
      | (split at hnew <;> simp only [Prod.mk.injEq, Except.ok.injEq] at hnew <;>
           obtain ⟨rfl, rfl⟩ := hnew <;>
           refine ⟨rfl, ⟨_, rfl⟩, ?_⟩ <;>
           simp [FS.size, FS.content, FS.get])

/-- A `Write` whose append lands the bytes it reports keeps the size field
equal to the on-disk size of the active file, whatever else fails. -/
theorem Tracks_Write (w : writer) (fs : FS) (buf : List Byte) (env : WriteEnv)
    (ht : Tracks w fs) (hl : env.lands buf) :
    Tracks (Write w fs buf env).2.1 (Write w fs buf env).2.2 := by
  obtain ⟨hopen, ⟨file, hact⟩, hsize⟩ := ht
  obtain ⟨h0, hle⟩ := hl
  have hlen : ((buf.take env.n.toNat).length : Int) = if 0 < env.n then env.n else 0 := by
    rw [List.length_take]
    split_ifs with hp <;> omega
  have hwb : ∀ (v : writer) (gs : FS) (g : File), v.file = some v.index →
      gs.get v.index = some g → v.size = gs.size v.index →
      Tracks (writeBuf v gs buf env).2.1 (writeBuf v gs buf env).2.2 := by
    intro v gs g hv hg hs
    obtain ⟨_, h2, h3⟩ := writeBuf_eq v gs buf env _ hv
    obtain ⟨hex, hcont⟩ := fileWrite_content gs v.index buf env.n env.writeErr env.writeTime g hg
    rw [h2, h3]
    refine ⟨hv, hex, ?_⟩
    simp only [FS.size, hcont, List.length_append]
    have hg2 : gs.size v.index = g.data.length := by simp [FS.size, FS.content, hg]
    rw [hs, hg2]
    push_cast
    rw [hlen]
  by_cases hge : w.maxHalfSize ≤ w.size
  · cases ho : env.openErr with
    | some e =>
      have : Write w fs buf env = ((-1, some e), w, fs) := by
        simp only [Write, hopen, ge_iff_le, hge, if_true, toOther, openTrunc, ho]
      rw [this]
      exact ⟨hopen, ⟨file, hact⟩, hsize⟩
    | none =>
      have hz : ((0 : Int)) = ((fs.set (1 - w.index)
          (some { data := [], modTime := env.openTime })).size (1 - w.index) : Nat) := by
        simp [FS.size, FS.content, FS.get_set_same]
      cases hc : env.closeErr with
      | some e =>
        have : Write w fs buf env = ((-1, some e),
            { w with file := some (1 - w.index), size := 0, index := 1 - w.index },
            fs.set (1 - w.index) (some { data := [], modTime := env.openTime })) := by
          simp only [Write, hopen, ge_iff_le, hge, if_true, toOther, openTrunc, ho, hc]
        rw [this]
        exact ⟨rfl, ⟨_, FS.get_set_same _ _ _⟩, hz⟩
      | none =>
        rw [Write_rotate w fs buf env _ hopen hge ho hc]
        exact hwb _ _ _ rfl (FS.get_set_same _ _ _) hz
  · have hlt : w.size < w.maxHalfSize := by omega
    rw [Write_below w fs buf env _ hopen hlt]
    exact hwb w fs file hopen hact hsize

theorem Tracks_writes (ws : List (List Byte × WriteEnv)) :
    ∀ (w : writer) (fs : FS), Tracks w fs → (∀ p ∈ ws, p.2.lands p.1) →
      Tracks (writes (w, fs) ws).1 (writes (w, fs) ws).2 := by
  induction ws with
  | nil =>
    intro w fs ht _
    exact ht
  | cons p rest ih =>
    obtain ⟨buf, env⟩ := p
    intro w fs ht hl
    exact ih _ _ (Tracks_Write w fs buf env ht (hl (buf, env) (List.mem_cons_self _ _)))
      (fun q hq => hl q (List.mem_cons_of_mem _ hq))

/-- C15: at every state reached from a successful `New` by `Write` calls,
whatever they return, whose appends land exactly the bytes they report, the
writer is open on `paths[index]`, that file exists, and the size field is its
on-disk size. -/
theorem size_is_on_disk_size (fs0 : FS) (maxSize : Int) (nenv : NewEnv) (w0 : writer) (fs1 : FS)
    (hnew : New fs0 maxSize nenv = (.ok w0, fs1))
    (ws : List (List Byte × WriteEnv)) (hl : ∀ p ∈ ws, p.2.lands p.1) :
    (writes (w0, fs1) ws).1.file = some (writes (w0, fs1) ws).1.index ∧
    (∃ f, (writes (w0, fs1) ws).2.get (writes (w0, fs1) ws).1.index = some f) ∧
    (writes (w0, fs1) ws).1.size =
      ((writes (w0, fs1) ws).2.size (writes (w0, fs1) ws).1.index : Nat) :=
  Tracks_writes ws w0 fs1 (New_Tracks fs0 maxSize nenv w0 fs1 hnew) hl

/-- C15 on a run with failures: after a full write, a partial write of 3
bytes, a rotation whose close fails and another full write, the writer is on B
with size 7, the 7 bytes B holds; A keeps its 10 bytes. -/
theorem size_is_on_disk_size_witness :
    (New emptyFS 20 (okNew 0) = (.ok testStart.1, testStart.2) ∧
      ∀ p ∈ faultyWrites, p.2.lands p.1) ∧
    ((writes (testStart.1, testStart.2) faultyWrites).1.file =
        some (writes (testStart.1, testStart.2) faultyWrites).1.index ∧
      (∃ f, (writes (testStart.1, testStart.2) faultyWrites).2.get
        (writes (testStart.1, testStart.2) faultyWrites).1.index = some f) ∧
      (writes (testStart.1, testStart.2) faultyWrites).1.size =
        ((writes (testStart.1, testStart.2) faultyWrites).2.size
          (writes (testStart.1, testStart.2) faultyWrites).1.index : Nat)) ∧
    (writes (testStart.1, testStart.2) faultyWrites).1.index = 1 ∧
    (writes (testStart.1, testStart.2) faultyWrites).1.size = 7 ∧
    (writes (testStart.1, testStart.2) faultyWrites).2.size 1 = 7 ∧
    (writes (testStart.1, testStart.2) faultyWrites).2.size 0 = 10 :=
  ⟨⟨rfl, by decide⟩,
    size_is_on_disk_size emptyFS 20 (okNew 0) testStart.1 testStart.2 rfl faultyWrites
      (by decide),
    by decide, by decide, by decide, by decide⟩

/-! ## A rotation whose close fails -/

/-- C16 as stated fails: with `maxSize` 1 the threshold is 0.  On the fresh
log, the first write rotates to B and the close of the old handle fails with
error 5: `Write` returns `(-1, error 5)`, the writer is on B with size 0.  The
next write finds size 0 at the threshold 0 and rotates again: it goes back to
A and writes there, B stays empty. -/
theorem next_Write_rotates_again :
    New emptyFS 1 (okNew 0) = (.ok tinyStart.1, tinyStart.2) ∧
    Write tinyStart.1 tinyStart.2 b1 { okEnv b1 1 with closeErr := some (.sys 5) } =
      ((-1, some (.sys 5)), { maxHalfSize := 0, index := 1, file := some 1, size := 0 },
        { A := some { data := [], modTime := 0 }, B := some { data := [], modTime := 1 } }) ∧
    Write { maxHalfSize := 0, index := 1, file := some 1, size := 0 }
        { A := some { data := [], modTime := 0 }, B := some { data := [], modTime := 1 } }
        b1 (okEnv b1 3) =
      ((7, none), { maxHalfSize := 0, index := 0, file := some 0, size := 7 },
        { A := some { data := b1, modTime := 4 }, B := some { data := [], modTime := 1 } }) := by
  refine ⟨rfl, by decide, by decide⟩

/-- C16, amended: on an open writer at or over the threshold, when the other
file is opened and the close of the old handle fails with `e`, `Write` returns
`(-1, e)` and the writer is committed to the new file: index flipped, size 0,
handle on the new file, which is empty, the old file untouched.  When the
threshold is positive, the next `Write` does not rotate: it appends to the new
active file, returns what its own append reports, and leaves the old file
untouched. -/
theorem Write_rotation_close_fails (w : writer) (fs : FS) (buf : List Byte) (env : WriteEnv)
    (f : Fin 2) (e : Err) (hopen : w.file = some f) (hge : w.maxHalfSize ≤ w.size)
    (ho : env.openErr = none) (hc : env.closeErr = some e) :
    Write w fs buf env =
      ((-1, some e), { w with file := some (1 - w.index), size := 0, index := 1 - w.index },
        fs.set (1 - w.index) (some { data := [], modTime := env.openTime })) ∧
    (0 < w.maxHalfSize → ∀ buf2 env2,
      (Write (Write w fs buf env).2.1 (Write w fs buf env).2.2 buf2 env2).1 =
        (env2.n, env2.writeErr) ∧
      (Write (Write w fs buf env).2.1 (Write w fs buf env).2.2 buf2 env2).2.1.index =
        1 - w.index ∧
      (Write (Write w fs buf env).2.1 (Write w fs buf env).2.2 buf2 env2).2.2.content
        (1 - w.index) = buf2.take env2.n.toNat ∧
      (Write (Write w fs buf env).2.1 (Write w fs buf env).2.2 buf2 env2).2.2.get w.index =
        fs.get w.index) := by
  have h1 : Write w fs buf env =
      ((-1, some e), { w with file := some (1 - w.index), size := 0, index := 1 - w.index },
        fs.set (1 - w.index) (some { data := [], modTime := env.openTime })) := by
    simp only [Write, hopen, ge_iff_le, hge, if_true, toOther, openTrunc, ho, hc]
  refine ⟨h1, fun hpos buf2 env2 => ?_⟩
  rw [h1]
  simp only
  rw [Write_below _ _ buf2 env2 (1 - w.index) rfl (by simpa using hpos)]
  obtain ⟨h2, h3, h4⟩ := writeBuf_eq
    { w with file := some (1 - w.index), size := 0, index := 1 - w.index }
    (fs.set (1 - w.index) (some { data := [], modTime := env.openTime })) buf2 env2
    (1 - w.index) rfl
  refine ⟨h2, by rw [h3], ?_, ?_⟩
  · rw [h4, (fileWrite_content _ _ buf2 env2.n env2.writeErr env2.writeTime
      { data := [], modTime := env.openTime } (FS.get_set_same _ _ _)).2]
    simp
  · rw [h4, fileWrite_other _ _ _ _ _ _ _ (one_sub_ne w.index).symm]
    exact FS.get_set_other _ _ _ _ (one_sub_ne w.index).symm

/-- C16 at the test: the third write finds 14 bytes in A; B is opened, the
close of A fails with error 5, and `Write` returns `(-1, error 5)` with the
writer on the empty B; the next write puts its 7 bytes into B. -/
theorem Write_rotation_close_fails_witness :
    ((writes testStart (testWrites 2)).1.file = some 0 ∧
      (writes testStart (testWrites 2)).1.maxHalfSize ≤ (writes testStart (testWrites 2)).1.size ∧
      ({ okEnv b1 5 with closeErr := some (.sys 5) } : WriteEnv).openErr = none ∧
      ({ okEnv b1 5 with closeErr := some (.sys 5) } : WriteEnv).closeErr = some (.sys 5) ∧
      (0 : Int) < (writes testStart (testWrites 2)).1.maxHalfSize) ∧
    Write (writes testStart (testWrites 2)).1 (writes testStart (testWrites 2)).2 b1
        { okEnv b1 5 with closeErr := some (.sys 5) } =
      ((-1, some (.sys 5)),
        { (writes testStart (testWrites 2)).1 with
          file := some (1 - (writes testStart (testWrites 2)).1.index), size := 0,
          index := 1 - (writes testStart (testWrites 2)).1.index },
        (writes testStart (testWrites 2)).2.set (1 - (writes testStart (testWrites 2)).1.index)
          (some { data := [],
                  modTime := ({ okEnv b1 5 with closeErr := some (.sys 5) } : WriteEnv).openTime })) ∧
    (Write (Write (writes testStart (testWrites 2)).1 (writes testStart (testWrites 2)).2 b1
        { okEnv b1 5 with closeErr := some (.sys 5) }).2.1
      (Write (writes testStart (testWrites 2)).1 (writes testStart (testWrites 2)).2 b1
        { okEnv b1 5 with closeErr := some (.sys 5) }).2.2 b1 (okEnv b1 7)).2.2.content 1 = b1 ∧
    (Write (Write (writes testStart (testWrites 2)).1 (writes testStart (testWrites 2)).2 b1
        { okEnv b1 5 with closeErr := some (.sys 5) }).2.1
      (Write (writes testStart (testWrites 2)).1 (writes testStart (testWrites 2)).2 b1
        { okEnv b1 5 with closeErr := some (.sys 5) }).2.2 b1 (okEnv b1 7)).1 =
      ((okEnv b1 7).n, (okEnv b1 7).writeErr) :=
  ⟨⟨by decide, by decide, rfl, rfl, by decide⟩,
    (Write_rotation_close_fails (writes testStart (testWrites 2)).1
      (writes testStart (testWrites 2)).2 b1 { okEnv b1 5 with closeErr := some (.sys 5) } 0
      (.sys 5) (by decide) (by decide) rfl rfl).1,
    by decide,
    ((Write_rotation_close_fails (writes testStart (testWrites 2)).1
      (writes testStart (testWrites 2)).2 b1 { okEnv b1 5 with closeErr := some (.sys 5) } 0
      (.sys 5) (by decide) (by decide) rfl rfl).2 (by decide) b1 (okEnv b1 7)).1⟩

/-! ## Opens that fail in `New` -/

/-- C17: with `maxSize` positive, on any files, when the open of `path.A` fails
with an error other than not-found `New` returns that error, whatever happens
to `path.B`; when the open of `path.A` succeeds or fails with not-found and
the open of `path.B` fails with an error other than not-found, `New` returns
that error; when neither file exists and the creating open of `path.A` fails,
`New` returns its error.  In all three cases no writer is returned and the
file system is as it was. -/
theorem New_open_error (fs : FS) (maxSize : Int) (env : NewEnv) (hm : 0 < maxSize) :
    (∀ c0, env.open0 = some c0 → New fs maxSize env = (.error (.sys c0), fs)) ∧
    (∀ c1, env.open0 = none → env.open1 = some c1 →
      New fs maxSize env = (.error (.sys c1), fs)) ∧
    (∀ e, fs.A = none → fs.B = none → env.open0 = none → env.open1 = none →
      env.create = some e → New fs maxSize env = (.error e, fs)) := by
  have hnot : ¬ maxSize ≤ 0 := by omega
  refine ⟨fun c0 h0 => ?_, fun c1 h0 h1 => ?_, fun e hA hB h0 h1 hc => ?_⟩
  · cases h1 : env.open1 <;> cases hB : fs.B <;>
      simp [New, hnot, openAppend, FS.get, IsNotExist, h0, h1, hB]
  · cases hA : fs.A <;>
      simp [New, hnot, openAppend, FS.get, IsNotExist, h0, h1, hA]
  · simp [New, hnot, openAppend, openTrunc, FS.get, IsNotExist, h0, h1, hA, hB, hc]

/-- C17 at the files of the test after its six writes, where both exist: when
the open of A fails with error 13 `New` returns it, also when the open of B
fails too; when only the open of B fails `New` returns that error. -/
theorem New_open_error_witness :
    (0 : Int) < 20 ∧
    New (writes testStart (testWrites 6)).2 20 { okNew 0 with open0 := some 13, open1 := some 24 }
      = (.error (.sys 13), (writes testStart (testWrites 6)).2) ∧
    New (writes testStart (testWrites 6)).2 20 { okNew 0 with open1 := some 24 }
      = (.error (.sys 24), (writes testStart (testWrites 6)).2) :=
  ⟨by decide,
    (New_open_error (writes testStart (testWrites 6)).2 20
      { okNew 0 with open0 := some 13, open1 := some 24 } (by decide)).1 13 rfl,
    (New_open_error (writes testStart (testWrites 6)).2 20
      { okNew 0 with open1 := some 24 } (by decide)).2.1 24 rfl rfl⟩

/-! ## Equal modification times -/

/-- C18: when `New` reaches the comparison of line 149 (both files exist, the
two opens and the two stats succeed, `maxSize` is positive) with equal
modification times, it returns a writer on `path.B` (index 1) with size the
on-disk size of B and changes nothing; and whenever it returns a writer with
index 0 there, A was modified strictly after B. -/
theorem New_equal_times (fs : FS) (a b : File) (maxSize : Int) (env : NewEnv)
    (hA : fs.A = some a) (hB : fs.B = some b) (hm : 0 < maxSize)
    (ho0 : env.open0 = none) (ho1 : env.open1 = none)
    (hs0 : env.stat0 = none) (hs1 : env.stat1 = none) :
    (a.modTime = b.modTime →
      New fs maxSize env =
        (.ok { maxHalfSize := maxSize.tdiv 2, index := 1, file := some 1, size := b.data.length },
          fs)) ∧
    (∀ w fs1, New fs maxSize env = (.ok w, fs1) → w.index = 0 → b.modTime < a.modTime) := by
  have hnot : ¬ maxSize ≤ 0 := by omega
  constructor
  · intro heq
    have hlt : ¬ b.modTime < a.modTime := by omega
    simp [New, hnot, openAppend, stat, FS.get, hA, hB, ho0, ho1, hs0, hs1, hlt]
  · intro w fs1 hnew hidx
    by_contra hlt
    simp [New, hnot, openAppend, stat, FS.get, hA, hB, ho0, ho1, hs0, hs1, hlt] at hnew
    obtain ⟨hw, _⟩ := hnew
    rw [← hw] at hidx
    have h10 : (1 : Fin 2) ≠ 0 := by decide
    exact h10 hidx

/-- C18 at two files both stamped 3: `New` returns a writer on B, with the 14
bytes of B as size. -/
theorem New_equal_times_witness :
    ((0 : Int) < 20 ∧ (okNew 0).open0 = none ∧ (okNew 0).open1 = none ∧
      (okNew 0).stat0 = none ∧ (okNew 0).stat1 = none ∧ (3 : Nat) = 3) ∧
    New { A := some { data := b1, modTime := 3 }, B := some { data := b1 ++ b1, modTime := 3 } }
        20 (okNew 0) =
      (.ok { maxHalfSize := (20 : Int).tdiv 2, index := 1, file := some 1,
             size := ((b1 ++ b1).length : Int) },
        { A := some { data := b1, modTime := 3 }, B := some { data := b1 ++ b1, modTime := 3 } }) :=
  ⟨⟨by decide, rfl, rfl, rfl, rfl, rfl⟩,
    (New_equal_times
      { A := some { data := b1, modTime := 3 }, B := some { data := b1 ++ b1, modTime := 3 } }
      { data := b1, modTime := 3 } { data := b1 ++ b1, modTime := 3 } 20 (okNew 0) rfl rfl
      (by decide) rfl rfl rfl rfl).1 rfl⟩

/-! ## The first `Close` -/

/-- C19: on an open writer, `Close` returns what the close of the handle
returns, nil or an error, sets the handle to nil and changes nothing else;
after it, whatever that result was, every later call, in any number and order,
gets the closed error, `Write` with the count `-1`, and writer and file system
stay as the `Close` left them. -/
theorem first_Close_closes (w : writer) (fs : FS) (f : Fin 2) (closeErr : Option Err)
    (hopen : w.file = some f) (cs : List Call) :
    Close w fs closeErr = (closeErr, { w with file := none }, fs) ∧
    calls (Close w fs closeErr).2 cs = (cs.map closedRet, (Close w fs closeErr).2) ∧
    (∀ buf env, Write (Close w fs closeErr).2.1 (Close w fs closeErr).2.2 buf env =
      ((-1, some errClosed), (Close w fs closeErr).2)) ∧
    (∀ e, Close (Close w fs closeErr).2.1 (Close w fs closeErr).2.2 e =
      (some errClosed, (Close w fs closeErr).2)) := by
  have hf := (Close_file w fs closeErr).1
  refine ⟨by simp [Close, hopen], calls_closed cs _ hf,
    fun buf env => Write_closed _ _ buf env hf, fun e => Close_closed _ _ e hf⟩

/-- C19 at the test: after its six writes a `Close` whose file close fails with
error 5 returns that error; the `Write` and the `Close` that follow get the
closed error and the files keep their 14 bytes each. -/
theorem first_Close_closes_witness :
    (writes testStart (testWrites 6)).1.file = some 0 ∧
    Close (writes testStart (testWrites 6)).1 (writes testStart (testWrites 6)).2
        (some (.sys 5)) =
      (some (.sys 5), { (writes testStart (testWrites 6)).1 with file := none },
        (writes testStart (testWrites 6)).2) ∧
    (calls (Close (writes testStart (testWrites 6)).1 (writes testStart (testWrites 6)).2
        (some (.sys 5))).2 [.write b1 (okEnv b1 21), .close none]).1 =
      [.write (-1) (some errClosed), .close (some errClosed)] ∧
    (calls (Close (writes testStart (testWrites 6)).1 (writes testStart (testWrites 6)).2
        (some (.sys 5))).2 [.write b1 (okEnv b1 21), .close none]).2.2 =
      (writes testStart (testWrites 6)).2 :=
  ⟨by decide,
    (first_Close_closes (writes testStart (testWrites 6)).1 (writes testStart (testWrites 6)).2 0
      (some (.sys 5)) (by decide) [.write b1 (okEnv b1 21), .close none]).1,
    by decide, by decide⟩

end Fixedsizelog
